import Mathlib

/-!
Verification development for the text-export serializer of the
bettergram/bettergram repository, file
`Telegram/SourceFiles/export/output/export_output_text.cpp`.

Modelling conventions:
* `QByteArray` / `QString` / `Data::Utf8String` values are modelled as
  `List Char` (named `Chars` below).  `QByteArray::append(ptr + offset, len)`
  becomes `(l.drop offset).take len`, and `QByteArray::indexOf(c, from)`
  becomes `indexOfFrom l c from` (returning `Option Nat` instead of `-1`).
* The source selects the line terminator at build time
  (`"\r\n"` on Windows, `"\n"` elsewhere).  We model the non-Windows build,
  `kLineBreak = "\n"`.
* C++ functions that append to an out-parameter (`SerializeMultiline`)
  are modelled as functions returning the appended bytes.
* `Expects(...)` preconditions are modelled by returning `Option` values:
  `none` means the precondition was violated.
* The declarations of the data model (`export_data_types.h`) and of the
  writer's fields (`export_output_text.h`) are not part of the sources at
  hand; structures below carry exactly the fields the `.cpp` uses, and the
  few formatting helpers from `export_data_types.cpp` are modelled from the
  spec (each such definition is marked `Modelled from the spec:`).
-/

/-- Byte strings of the source are modelled as lists of characters. -/
abbrev Chars := List Char

/-- Convenience conversion from Lean string literals. -/
def strL (s : String) : Chars := s.toList

/-- The fixed line terminator `kLineBreak`; the source chooses `"\r\n"` on
Windows and `"\n"` elsewhere, we model the non-Windows build. -/
def kLineBreak : Chars := ['\n']

/-- The `"> "` marker put in front of every block-quoted line. -/
def quoteMark : Chars := ['>', ' ']

/-- `QByteArray::indexOf(c, start)`: index of the first occurrence of `c`
at position `start` or later, `none` when there is none (the C++ `-1`). -/
def indexOfFrom (l : Chars) (c : Char) (start : Nat) : Option Nat :=
  ((l.drop start).findIdx? (· = c)).map (· + start)

/-- The trailing `if (const auto size = value.size(); size > offset) ...`
of `SerializeMultiline`: quote the final, unterminated line if nonempty. -/
def serializeMultilineTail (value : Chars) (offset : Nat) : Chars :=
  if value.length > offset then
    quoteMark ++ value.drop offset ++ kLineBreak
  else
    []

/-- The do/while loop of `SerializeMultiline` (lines 31–39 of the source):
`offset` is the start of the current line (the C++ local `offset`),
`newline` the index of the next `'\n'`.  The C++ local `win` is the inner
`if` condition (it drops a `'\r'` standing directly before the `'\n'`
from the quoted line, giving the C++ local `nl1`), the emitted `line` is
the first three appends, and `offset2 = newline + 1` restores the
`++newline; offset = newline + 1` step.  The bounds check on the
recursive call records what `QByteArray::indexOf` guarantees (established
as `indexOfFrom_some` below) and only serves the termination argument;
its `else` branch mirrors the loop exit. -/
def serializeMultilineLoop (value : Chars) (offset newline : Nat) : Chars :=
  quoteMark ++
    (value.drop offset).take
      ((if newline > 0 && decide (value.get? (newline - 1) = some '\r')
        then newline - 1 else newline) - offset) ++
    kLineBreak ++
    (match indexOfFrom value '\n' (newline + 1) with
     | some m =>
       if hb : newline < m ∧ m < value.length then
         serializeMultilineLoop value (newline + 1) m
       else
         serializeMultilineTail value (newline + 1)
     | none => serializeMultilineTail value (newline + 1))
termination_by value.length - newline
decreasing_by
  omega

/-- `SerializeMultiline(appendTo, value, newline)` (source lines 25–44),
returning the bytes appended to `appendTo`; `newline` is the index of the
first `'\n'` of `value`, as passed by `SerializeKeyValue`. -/
def SerializeMultiline (value : Chars) (newline : Nat) : Chars :=
  serializeMultilineLoop value 0 newline

/-- `JoinList` (source lines 46–70): join a list of byte strings with a
separator; the C++ loop appends `list[0], sep, list[1], sep, ...`. -/
def JoinList (separator : Chars) : List Chars → Chars
  | [] => []
  | [x] => x
  | x :: xs => x ++ separator ++ JoinList separator xs

/-- `SerializeKeyValue` (source lines 72–88): render an ordered sequence of
(label, value) pairs, skipping pairs with empty values; values containing a
`'\n'` are block-quoted via `SerializeMultiline`. -/
def SerializeKeyValue (values : List (Chars × Chars)) : Chars :=
  values.foldl
    (fun result kv =>
      if kv.2 = [] then
        result
      else
        match indexOfFrom kv.2 '\n' 0 with
        | some newline =>
          result ++ kv.1 ++ [':'] ++ kLineBreak ++ SerializeMultiline kv.2 newline
        | none =>
          result ++ kv.1 ++ [':', ' '] ++ kv.2 ++ kLineBreak)
    []

/-- The rendering of one kept (label, value) pair, used to state what
`SerializeKeyValue` produces pair by pair. -/
def renderPair (kv : Chars × Chars) : Chars :=
  match indexOfFrom kv.2 '\n' 0 with
  | some newline => kv.1 ++ [':'] ++ kLineBreak ++ SerializeMultiline kv.2 newline
  | none => kv.1 ++ [':', ' '] ++ kv.2 ++ kLineBreak

/-- Concatenation of a list of byte strings. -/
def concatAll (l : List Chars) : Chars := l.foldr (· ++ ·) []

/-! ### Line-splitting vocabulary used to specify `SerializeMultiline` -/

/-- Split a byte string at every `'\n'`; the separators are not kept.
A string with `k` line feeds yields `k + 1` pieces. -/
def splitNl : Chars → List Chars
  | [] => [[]]
  | c :: rest =>
    if c = '\n' then [] :: splitNl rest
    else
      match splitNl rest with
      | [] => [[c]]
      | p :: ps => (c :: p) :: ps

/-- Join pieces back with `'\n'`. -/
def joinNl : List Chars → Chars
  | [] => []
  | [p] => p
  | p :: ps => p ++ '\n' :: joinNl ps

/-- Whether a piece ends with a carriage return. -/
def endsCR (p : Chars) : Bool := decide (p.getLast? = some '\r')

/-- Drop a single trailing carriage return, if present. -/
def stripCR (p : Chars) : Chars := if endsCR p then p.dropLast else p

/-- The quoted lines of a multi-line value: every piece except the last is
stripped of a trailing `'\r'`; the last piece is kept as is. -/
def quotedOf : List Chars → List Chars
  | [] => []
  | [p] => [p]
  | p :: ps => stripCR p :: quotedOf ps

/-- The original separators standing between the pieces of the value:
`"\r\n"` where the piece ended with a carriage return, else `"\n"`. -/
def sepsOf : List Chars → List Chars
  | [] => []
  | [_] => []
  | p :: ps => (if endsCR p then ['\r', '\n'] else ['\n']) :: sepsOf ps

/-- Interleave quoted lines with separators: `q0 ++ s1 ++ q1 ++ ...`. -/
def interleave : List Chars → List Chars → Chars
  | [], _ => []
  | [q], _ => q
  | q :: qs, s :: ss => q ++ s ++ interleave qs ss
  | q :: _, [] => q

/-- What `SerializeMultiline` produces, expressed over the pieces of the
value: every piece but the last gives a `"> "`-quoted, CR-stripped,
terminated line; the final piece gives such a line only when nonempty. -/
def renderPieces : List Chars → Chars
  | [] => []
  | [p] => if p = [] then [] else quoteMark ++ p ++ kLineBreak
  | p :: ps => quoteMark ++ stripCR p ++ kLineBreak ++ renderPieces ps

/-- Recognize a block-quoted line (starts with `"> "`). -/
def isQuotedLine : Chars → Bool
  | '>' :: ' ' :: _ => true
  | _ => false

/-! ### Value formatters (`export_data_types.cpp`, not among the sources) -/

/-- Little-endian decimal digit characters; the structural fuel makes the
function computable by the kernel (shown equal to `Nat.digits` below). -/
def decimalDigitsAux : Nat → Nat → Chars
  | 0, _ => []
  | fuel + 1, n =>
    if n = 0 then [] else Nat.digitChar (n % 10) :: decimalDigitsAux fuel (n / 10)

/-- Decimal digit characters of a natural number, most significant first. -/
def decimalDigits (n : Nat) : Chars :=
  if n = 0 then ['0'] else (decimalDigitsAux n n).reverse

/-- Modelled from the spec: `Data::NumberToString(value, digits, filler)`
from the missing `export_data_types` — decimal formatting with optional
zero-padding to `digits` positions (§4.1 of the spec: "decimal formatting
with optional zero-padding to N digits"). -/
def NumberToString (n : Nat) (digits : Nat := 1) (filler : Char := '0') : Chars :=
  List.replicate (digits - (decimalDigits n).length) filler ++ decimalDigits n

/-- Read a decimal digit string back as a number (used only to state that
the generated dialog indices encode the running index faithfully). -/
def parseDec (s : Chars) : Nat :=
  s.foldl (fun a c => 10 * a + (c.toNat - 48)) 0

/-- Number of characters of the plain decimal form of `n`. -/
def decLen (n : Nat) : Nat := (decimalDigits n).length

/-- Modelled from the spec: `Data::FormatDateTime` from the missing
`export_data_types` — calendar-timestamp formatting where "absent/zero
inputs format to an empty token" (§4.1).  The exact calendar form is
irrelevant to the claims; a nonzero timestamp yields a nonempty token. -/
def FormatDateTime (t : Nat) : Chars :=
  if t = 0 then [] else strL "date:" ++ decimalDigits t

/-- Modelled from the spec: `Data::FormatPhoneNumber` from the missing
`export_data_types` — "phone-number punctuation insertion" (§4.1); an empty
input stays empty.  Punctuation details are irrelevant to the claims. -/
def FormatPhoneNumber (p : Chars) : Chars := p

/-- Modelled from the spec: `Data::FormatMoneyAmount` from the missing
`export_data_types` — "monetary minor-unit amount + currency code
formatting" (§4.1). -/
def FormatMoneyAmount (amount : Nat) (currency : Chars) : Chars :=
  decimalDigits amount ++ [' '] ++ currency

/-- `FormatUsername` (source lines 90–92). -/
def FormatUsername (username : Chars) : Chars :=
  if username = [] then username else '@' :: username

/-! ### Data model (`export_data_types.h`, not among the sources; the
structures carry exactly the fields `export_output_text.cpp` reads) -/

/-- `Data::File::SkipReason`. -/
inductive SkipReason
  | noSkip
  | unavailable
  | fileSize
  | fileType
deriving DecidableEq, Repr

/-- `Data::File`: "either a non-empty relative path, or a skip-reason"
(spec §3). -/
structure DataFile where
  relativePath : Chars := []
  skipReason : SkipReason := .noSkip
deriving DecidableEq, Repr

/-- `Data::Image` as used by the serializer: dimensions and a file. -/
structure Image where
  width : Nat := 0
  height : Nat := 0
  file : DataFile := {}
deriving DecidableEq, Repr

/-- `Data::UserInfo`: the name/phone triple (`data.user.info.*`). -/
structure UserInfo where
  firstName : Chars := []
  lastName : Chars := []
  phoneNumber : Chars := []
deriving DecidableEq, Repr

/-- `Data::User` as used by the serializer. -/
structure User where
  info : UserInfo := {}
  username : Chars := []
  isBot : Bool := false
deriving DecidableEq, Repr

/-- Modelled from the spec: `User::name()` from the missing
`export_data_types` — the display name assembled from the name parts; all
the claims need is that the default (sentinel) user has an empty name. -/
def User.name (u : User) : Chars :=
  if u.info.firstName = [] then u.info.lastName
  else if u.info.lastName = [] then u.info.firstName
  else u.info.firstName ++ [' '] ++ u.info.lastName

/-- `Data::Chat` as used by the serializer. -/
structure Chat where
  title : Chars := []
deriving DecidableEq, Repr

/-- `Data::Peer`: "variant: User | Chat" (spec §3). -/
inductive Peer
  | user (u : User)
  | chat (c : Chat)
deriving DecidableEq, Repr

/-- `Peer::name()`. -/
def Peer.name : Peer → Chars
  | .user u => u.name
  | .chat c => c.title

/-- `Peer::user()`. -/
def Peer.asUser : Peer → Option User
  | .user u => some u
  | .chat _ => none

/-- `Data::PeerId` with the `UserPeerId`/`ChatPeerId` injections. -/
inductive PeerId
  | userPeer (id : Nat)
  | chatPeer (id : Nat)
deriving DecidableEq, Repr

/-- The peer mapping (`std::map<Data::PeerId, Data::Peer>`). -/
abbrev PeerMap := List (PeerId × Peer)

/-- The `peer` lambda of `SerializeMessage` (source lines 110–116): lookup
with an immutable empty `User` sentinel on a miss. -/
def peerOf (peers : PeerMap) (peerId : PeerId) : Peer :=
  match peers.find? (fun e => e.1 = peerId) with
  | some e => e.2
  | none => Peer.user {}

/-- The `user` lambda (source lines 117–123): `peer(UserPeerId(id)).user()`
with an empty `User` fallback. -/
def userOf (peers : PeerMap) (userId : Nat) : User :=
  match (peerOf peers (.userPeer userId)).asUser with
  | some u => u
  | none => {}

/-- `Data::ActionPhoneCall::DiscardReason`. -/
inductive DiscardReason
  | busy
  | disconnect
  | hangup
  | missed
deriving DecidableEq, Repr

/-- `Data::ActionSecureValuesSent::Type` (a 13-way document-type tag). -/
inductive SecureValueType
  | personalDetails
  | passportDoc
  | driverLicense
  | identityCard
  | internalPassportDoc
  | address
  | utilityBill
  | bankStatement
  | rentalAgreement
  | passportRegistration
  | temporaryRegistration
  | phone
  | email
deriving DecidableEq, Repr

/-- `Data::Photo` as used by the serializer. -/
structure PhotoData where
  image : Image := {}
deriving DecidableEq, Repr

/-- The action variant of a message (`message.action.content`); payloads
carry exactly the fields read by `SerializeMessage`. -/
inductive ActionContent
  | chatCreate (title : Chars) (userIds : List Nat)
  | chatEditTitle (title : Chars)
  | chatEditPhoto (photo : PhotoData)
  | chatDeletePhoto
  | chatAddUser (userIds : List Nat)
  | chatDeleteUser (userId : Nat)
  | chatJoinedByLink (inviterId : Nat)
  | channelCreate (title : Chars)
  | chatMigrateTo
  | channelMigrateFrom (title : Chars)
  | pinMessage
  | historyClear
  | gameScore (score : Nat)
  | paymentSent (currency : Chars) (amount : Nat)
  | phoneCall (duration : Nat) (discardReason : DiscardReason)
  | screenshotTaken
  | customAction (message : Chars)
  | botAllowed (domain : Chars)
  | secureValuesSent (types : List SecureValueType)
  | noAction
deriving DecidableEq, Repr

/-- `Data::Document` as used by the serializer. -/
structure Document where
  isSticker : Bool := false
  isVideoMessage : Bool := false
  isVoiceMessage : Bool := false
  isAnimated : Bool := false
  isVideoFile : Bool := false
  isAudioFile : Bool := false
  stickerEmoji : Chars := []
  songPerformer : Chars := []
  songTitle : Chars := []
  mime : Chars := []
  duration : Nat := 0
  width : Nat := 0
  height : Nat := 0
  file : DataFile := {}
deriving DecidableEq, Repr

/-- `Data::ContactInfo` as used by the serializer. -/
structure ContactInfo where
  firstName : Chars := []
  lastName : Chars := []
  phoneNumber : Chars := []
deriving DecidableEq, Repr

/-- `Data::GeoPoint`; the coordinates (doubles in the source) are modelled
as naturals — no claim depends on their formatting. -/
structure GeoPoint where
  valid : Bool := false
  latitude : Nat := 0
  longitude : Nat := 0
deriving DecidableEq, Repr

/-- `Data::Venue` as used by the serializer. -/
structure Venue where
  point : GeoPoint := {}
  title : Chars := []
  address : Chars := []
deriving DecidableEq, Repr

/-- `Data::Game` as used by the serializer. -/
structure Game where
  title : Chars := []
  description : Chars := []
  shortName : Chars := []
  botId : Nat := 0
deriving DecidableEq, Repr

/-- `Data::Invoice` as used by the serializer. -/
structure Invoice where
  title : Chars := []
  description : Chars := []
  currency : Chars := []
  amount : Nat := 0
  receiptMsgId : Nat := 0
deriving DecidableEq, Repr

/-- The media variant of a message (`message.media.content`). -/
inductive MediaContent
  | photo (p : PhotoData)
  | document (d : Document)
  | contact (c : ContactInfo)
  | geoPoint (g : GeoPoint)
  | venue (v : Venue)
  | game (g : Game)
  | invoice (i : Invoice)
  | unsupported
  | noMedia
deriving DecidableEq, Repr

/-- `Data::Media`: the content variant plus the self-destruct period. -/
structure Media where
  content : MediaContent := .noMedia
  ttl : Nat := 0
deriving DecidableEq, Repr

/-- `Data::Message` with the fields `SerializeMessage` reads; absent
numeric ids are `0`, as in the source (`if (message.fromId) ...`). -/
structure Message where
  id : Nat := 0
  date : Nat := 0
  edited : Nat := 0
  fromId : Nat := 0
  replyToMsgId : Nat := 0
  forwardedFromId : Option PeerId := none
  viaBotId : Nat := 0
  signature : Chars := []
  text : Chars := []
  action : ActionContent := .noAction
  media : Media := {}
deriving DecidableEq, Repr

/-! ### `SerializeMessage` (source lines 98–430) -/

/-- The `push` lambda (source lines 137–141): append a pair only when the
value is nonempty. -/
def pushIf (key : Chars) (value : Chars) : List (Chars × Chars) :=
  if value = [] then [] else [(key, value)]

/-- `wrapPeerName` (source lines 142–145). -/
def wrapPeerName (peers : PeerMap) (peerId : PeerId) : Chars :=
  let result := (peerOf peers peerId).name
  if result = [] then strL "(unknown peer)" else result

/-- `wrapUserName` (source lines 146–149). -/
def wrapUserName (peers : PeerMap) (userId : Nat) : Chars :=
  let result := (userOf peers userId).name
  if result = [] then strL "(unknown user)" else result

/-- `pushFrom` (source lines 150–154). -/
def pushFrom (message : Message) (peers : PeerMap) (label : Chars) : List (Chars × Chars) :=
  if message.fromId ≠ 0 then pushIf label (wrapUserName peers message.fromId) else []

/-- `pushReplyToMsgId` (source lines 155–160). -/
def pushReplyToMsgId (message : Message) (label : Chars) : List (Chars × Chars) :=
  if message.replyToMsgId ≠ 0 then
    pushIf label (strL "ID-" ++ NumberToString message.replyToMsgId)
  else []

/-- `pushUserNames` (source lines 161–174): one name under the singular
label, several joined with `", "` under the plural label. -/
def pushUserNames (peers : PeerMap) (data : List Nat)
    (labelOne labelMany : Chars) : List (Chars × Chars) :=
  let list := data.map (wrapUserName peers)
  match list with
  | [] => []
  | [x] => pushIf labelOne x
  | _ => pushIf labelMany (JoinList (strL ", ") list)

/-- `pushTTL` (source lines 181–186). -/
def pushTTL (message : Message) (label : Chars) : List (Chars × Chars) :=
  if message.media.ttl ≠ 0 then
    pushIf label (NumberToString message.media.ttl ++ strL " sec.")
  else []

/-- The value written by `pushPath` (source lines 188–206); the `switch` on
the skip reason is exhaustive, so the trailing `Unexpected` is
unreachable. -/
def pathText (file : DataFile) (name : Chars) : Chars :=
  let pre := if name = [] then [] else name ++ [' ']
  match file.skipReason with
  | .unavailable => pre ++ strL "(file unavailable)"
  | .fileSize => pre ++ strL "(file too large)"
  | .fileType => pre ++ strL "(file skipped)"
  | .noSkip => file.relativePath

/-- `pushPath` (source lines 188–206). -/
def pushPath (file : DataFile) (label : Chars) (name : Chars := []) : List (Chars × Chars) :=
  pushIf label (pathText file name)

/-- `pushPhoto` (source lines 207–213). -/
def pushPhoto (image : Image) : List (Chars × Chars) :=
  pushPath image.file (strL "Photo") ++
    (if image.width ≠ 0 ∧ image.height ≠ 0 then
      pushIf (strL "Width") (NumberToString image.width) ++
      pushIf (strL "Height") (NumberToString image.height)
    else [])

/-- The discard-reason lookup inside the phone-call arm (source
lines 278–287). -/
def discardText : DiscardReason → Chars
  | .busy => strL "Busy"
  | .disconnect => strL "Disconnect"
  | .hangup => strL "Hangup"
  | .missed => strL "Missed"

/-- The 13-way document-type lookup of the passport arm (source
lines 301–321). -/
def secureValueText : SecureValueType → Chars
  | .personalDetails => strL "Personal details"
  | .passportDoc => strL "Passport"
  | .driverLicense => strL "Driver license"
  | .identityCard => strL "Identity card"
  | .internalPassportDoc => strL "Internal passport"
  | .address => strL "Address information"
  | .utilityBill => strL "Utility bill"
  | .bankStatement => strL "Bank statement"
  | .rentalAgreement => strL "Rental agreement"
  | .passportRegistration => strL "Passport registration"
  | .temporaryRegistration => strL "Temporary registration"
  | .phone => strL "Phone number"
  | .email => strL "Email"

/-- `pushActor` (source lines 175–177). -/
def pushActor (message : Message) (peers : PeerMap) : List (Chars × Chars) :=
  pushFrom message peers (strL "Actor")

/-- `pushAction` (source lines 178–180). -/
def pushAction (action : Chars) : List (Chars × Chars) :=
  pushIf (strL "Action") action

/-- The action dispatch (`message.action.content.match`, source
lines 215–328), as the list of pairs it pushes. -/
def actionValues (message : Message) (peers : PeerMap) : List (Chars × Chars) :=
  match message.action with
  | .chatCreate title userIds =>
    pushActor message peers ++ pushAction (strL "Create group") ++
    pushIf (strL "Title") title ++
    pushUserNames peers userIds (strL "Member") (strL "Members")
  | .chatEditTitle title =>
    pushActor message peers ++ pushAction (strL "Edit group title") ++
    pushIf (strL "New title") title
  | .chatEditPhoto photo =>
    pushActor message peers ++ pushAction (strL "Edit group photo") ++
    pushPhoto photo.image
  | .chatDeletePhoto =>
    pushActor message peers ++ pushAction (strL "Delete group photo")
  | .chatAddUser userIds =>
    pushActor message peers ++ pushAction (strL "Invite members") ++
    pushUserNames peers userIds (strL "Member") (strL "Members")
  | .chatDeleteUser userId =>
    pushActor message peers ++ pushAction (strL "Remove members") ++
    pushIf (strL "Member") (wrapUserName peers userId)
  | .chatJoinedByLink inviterId =>
    pushActor message peers ++ pushAction (strL "Join group by link") ++
    pushIf (strL "Inviter") (wrapUserName peers inviterId)
  | .channelCreate title =>
    pushActor message peers ++ pushAction (strL "Create channel") ++
    pushIf (strL "Title") title
  | .chatMigrateTo =>
    pushActor message peers ++ pushAction (strL "Migrate this group to supergroup")
  | .channelMigrateFrom title =>
    pushActor message peers ++ pushAction (strL "Migrate this supergroup from group") ++
    pushIf (strL "Title") title
  | .pinMessage =>
    pushActor message peers ++ pushAction (strL "Pin message") ++
    pushReplyToMsgId message (strL "Message")
  | .historyClear =>
    pushActor message peers ++ pushAction (strL "Clear history")
  | .gameScore score =>
    pushActor message peers ++ pushAction (strL "Score in a game") ++
    pushReplyToMsgId message (strL "Game message") ++
    pushIf (strL "Score") (NumberToString score)
  | .paymentSent currency amount =>
    pushAction (strL "Send payment") ++
    pushIf (strL "Amount") (FormatMoneyAmount amount currency) ++
    pushReplyToMsgId message (strL "Invoice message")
  | .phoneCall duration discardReason =>
    pushActor message peers ++ pushAction (strL "Phone call") ++
    (if duration ≠ 0 then
      pushIf (strL "Duration") (NumberToString duration ++ strL " sec.")
    else []) ++
    pushIf (strL "Discard reason") (discardText discardReason)
  | .screenshotTaken =>
    pushActor message peers ++ pushAction (strL "Take screenshot")
  | .customAction msg =>
    pushActor message peers ++ pushIf (strL "Information") msg
  | .botAllowed domain =>
    pushAction (strL "Allow sending messages") ++
    pushIf (strL "Reason") (strL "Login on \"" ++ domain ++ ['"'])
  | .secureValuesSent types =>
    pushAction (strL "Send Telegram Passport values") ++
    (let list := types.map secureValueText
     match list with
     | [] => []
     | [x] => pushIf (strL "Value") x
     | _ => pushIf (strL "Values") (JoinList (strL ", ") list))
  | .noAction => []

/-- The `if (!message.action.content)` block (source lines 330–340). -/
def nonActionValues (message : Message) (peers : PeerMap) : List (Chars × Chars) :=
  if message.action = .noAction then
    pushFrom message peers (strL "From") ++
    pushIf (strL "Author") message.signature ++
    (match message.forwardedFromId with
     | some fwd => pushIf (strL "Forwarded from") (wrapPeerName peers fwd)
     | none => []) ++
    pushReplyToMsgId message (strL "Reply to message") ++
    (if message.viaBotId ≠ 0 then
      pushIf (strL "Via") (userOf peers message.viaBotId).username
    else [])
  else []

/-- The media dispatch (`message.media.content.match`, source
lines 342–425).  The `unsupported` arm aborts via `Unexpected` in the
source; it is unreachable behind the early return of `SerializeMessage`
and contributes nothing here. -/
def mediaValues (message : Message) (peers : PeerMap)
    (internalLinksDomain : Chars) : List (Chars × Chars) :=
  match message.media.content with
  | .photo p =>
    pushPhoto p.image ++ pushTTL message (strL "Self destruct period")
  | .document d =>
    (if d.isSticker then
      pushPath d.file (strL "Sticker") ++ pushIf (strL "Emoji") d.stickerEmoji
    else if d.isVideoMessage then
      pushPath d.file (strL "Video message")
    else if d.isVoiceMessage then
      pushPath d.file (strL "Voice message")
    else if d.isAnimated then
      pushPath d.file (strL "Animation")
    else if d.isVideoFile then
      pushPath d.file (strL "Video file")
    else if d.isAudioFile then
      pushPath d.file (strL "Audio file") ++
      pushIf (strL "Performer") d.songPerformer ++
      pushIf (strL "Title") d.songTitle
    else
      pushPath d.file (strL "File")) ++
    (if ¬d.isSticker then pushIf (strL "Mime type") d.mime else []) ++
    (if d.duration ≠ 0 then
      pushIf (strL "Duration") (NumberToString d.duration ++ strL " sec.")
    else []) ++
    (if d.width ≠ 0 ∧ d.height ≠ 0 then
      pushIf (strL "Width") (NumberToString d.width) ++
      pushIf (strL "Height") (NumberToString d.height)
    else []) ++
    pushTTL message (strL "Self destruct period")
  | .contact c =>
    pushIf (strL "Contact information") (SerializeKeyValue [
      (strL "First name", c.firstName),
      (strL "Last name", c.lastName),
      (strL "Phone number", FormatPhoneNumber c.phoneNumber)])
  | .geoPoint g =>
    pushIf (strL "Location")
      (if g.valid then
        SerializeKeyValue [
          (strL "Latitude", NumberToString g.latitude),
          (strL "Longitude", NumberToString g.longitude)]
      else strL "(empty value)") ++
    pushTTL message (strL "Live location period")
  | .venue v =>
    pushIf (strL "Place name") v.title ++
    pushIf (strL "Address") v.address ++
    (if v.point.valid then
      pushIf (strL "Location") (SerializeKeyValue [
        (strL "Latitude", NumberToString v.point.latitude),
        (strL "Longitude", NumberToString v.point.longitude)])
    else [])
  | .game g =>
    pushIf (strL "Game") g.title ++
    pushIf (strL "Description") g.description ++
    (if g.botId ≠ 0 ∧ g.shortName ≠ [] then
      let bot := userOf peers g.botId
      if bot.isBot ∧ bot.username ≠ [] then
        pushIf (strL "Link")
          (internalLinksDomain ++ bot.username ++ strL "?game=" ++ g.shortName)
      else []
    else [])
  | .invoice i =>
    pushIf (strL "Invoice") (SerializeKeyValue [
      (strL "Title", i.title),
      (strL "Description", i.description),
      (strL "Amount", FormatMoneyAmount i.amount i.currency),
      (strL "Receipt message",
        if i.receiptMsgId ≠ 0 then strL "ID-" ++ NumberToString i.receiptMsgId
        else [])])
  | .unsupported => []
  | .noMedia => []

/-- The initial `values` vector of `SerializeMessage` (source
lines 132–136): ID, Date and Edited are pushed unconditionally, with
possibly empty formatted values. -/
def baseValues (message : Message) : List (Chars × Chars) :=
  [(strL "ID", NumberToString message.id),
   (strL "Date", FormatDateTime message.date),
   (strL "Edited", FormatDateTime message.edited)]

/-- The complete `values` vector handed to `SerializeKeyValue` at the end
of `SerializeMessage`. -/
def messageValues (message : Message) (peers : PeerMap)
    (internalLinksDomain : Chars) : List (Chars × Chars) :=
  baseValues message ++
  actionValues message peers ++
  nonActionValues message peers ++
  mediaValues message peers internalLinksDomain ++
  pushIf (strL "Text") message.text

/-- The fixed warning returned for unsupported media (source
lines 104–108). -/
def unsupportedWarning : Chars :=
  strL "Error! This message is not supported by this version of Telegram Desktop. Please update the application."

/-- `SerializeMessage` (source lines 98–430). -/
def SerializeMessage (message : Message) (peers : PeerMap)
    (internalLinksDomain : Chars) : Chars :=
  if message.media.content = .unsupported then
    unsupportedWarning
  else
    SerializeKeyValue (messageValues message peers internalLinksDomain)

/-- Whether the pair list holds a kept entry (nonempty value) under the
given label — "the serialized output contains an X entry". -/
def hasEntry (values : List (Chars × Chars)) (label : Chars) : Bool :=
  values.any (fun p => p.1 = label && p.2 ≠ [])

/-! ### `TextWriter` (source lines 434–754) -/

/-- `File::Result` of the file sink: one append-block operation with a
success/failure result (spec §4.4). -/
inductive FileResult
  | success
  | failure
deriving DecidableEq, Repr

/-- `Data::DialogInfo::Type`. -/
inductive DialogType
  | unknown
  | personal
  | bot
  | privateGroup
  | publicGroup
  | privateChannel
  | publicChannel
deriving DecidableEq, Repr

/-- `Data::DialogInfo` as used by the text writer. -/
structure DialogInfo where
  relativePath : Chars := []
  name : Chars := []
  dtype : DialogType := .unknown
  onlyMyMessages : Bool := false
deriving DecidableEq, Repr

/-- One userpic of a `Data::UserpicsSlice`. -/
structure Userpic where
  date : Nat := 0
  image : Image := {}
deriving DecidableEq, Repr

/-- `Data::MessagesSlice` as used by the text writer. -/
structure MessagesSlice where
  list : List Message := []
  peers : PeerMap := []
deriving DecidableEq, Repr

/-- `Data::PersonalInfo` as used by the text writer. -/
structure PersonalInfo where
  user : User := {}
  bio : Chars := []
deriving DecidableEq, Repr

/-- The mutable session state of `TextWriter`.  The fields mirror the
writer's members (declared in the missing `export_output_text.h`; their
zero/empty initial values follow the spec's session lifecycle, §3).
File sinks are modelled by the bytes handed to their `writeBlock` calls:
`mainContent` for `_result`, `chatContent` for the currently open `_chat`
(reset when a new per-dialog file is opened), `sideWrites` for the
one-shot side files. -/
structure WState where
  resultOpen : Bool := false
  mainContent : Chars := []
  userpicsCount : Nat := 0
  dialogsCount : Nat := 0
  dialogIndex : Nat := 0
  chatOpen : Bool := false
  chatContent : Chars := []
  dialogEmpty : Bool := false
  dialogOnlyMy : Bool := false
  sideWrites : List (Chars × Chars) := []
  settingsDomain : Chars := []
deriving DecidableEq, Repr

/-- The session right after a successful `start` (with empty settings
domain; the domain value is irrelevant to every claim). -/
def initialState : WState :=
  { resultOpen := true }

/-- `writePersonal` (source lines 442–458); `r` is the sink's answer to
the single `writeBlock` call, whose bytes are appended to `mainContent`. -/
def writePersonal (st : WState) (data : PersonalInfo) (r : FileResult) :
    Option (WState × Bool) :=
  if st.resultOpen then
    let serialized :=
      strL "Personal information" ++ kLineBreak ++ kLineBreak ++
      SerializeKeyValue [
        (strL "First name", data.user.info.firstName),
        (strL "Last name", data.user.info.lastName),
        (strL "Phone number", FormatPhoneNumber data.user.info.phoneNumber),
        (strL "Username", FormatUsername data.user.username),
        (strL "Bio", data.bio)] ++
      kLineBreak
    some ({ st with mainContent := st.mainContent ++ serialized }, r = .success)
  else none

/-- `writeUserpicsStart` (source lines 460–472). -/
def writeUserpicsStart (st : WState) (count : Nat) (r : FileResult) :
    Option (WState × Bool) :=
  if st.resultOpen then
    let st := { st with userpicsCount := count }
    if count = 0 then
      some (st, true)
    else
      let serialized :=
        strL "Personal photos (" ++ NumberToString count ++ [')'] ++
        kLineBreak ++ kLineBreak
      some ({ st with mainContent := st.mainContent ++ serialized }, r = .success)
  else none

/-- The `lines` accumulation of `writeUserpicsSlice` (source
lines 478–491), translated as the loop's fold. -/
def userpicsSliceBytes (list : List Userpic) : Chars :=
  list.foldl
    (fun lines userpic =>
      lines ++
      (if userpic.date = 0 then
        strL "(deleted photo)"
      else
        FormatDateTime userpic.date ++ strL " - " ++
        (if userpic.image.file.relativePath = [] then
          strL "(file unavailable)"
        else
          userpic.image.file.relativePath)) ++
      kLineBreak)
    []

/-- `writeUserpicsSlice` (source lines 474–493). -/
def writeUserpicsSlice (st : WState) (list : List Userpic) (r : FileResult) :
    Option (WState × Bool) :=
  if st.resultOpen ∧ list ≠ [] then
    some ({ st with mainContent := st.mainContent ++ userpicsSliceBytes list },
      r = .success)
  else none

/-- `writeUserpicsEnd` (source lines 495–501). -/
def writeUserpicsEnd (st : WState) (r : FileResult) : Option (WState × Bool) :=
  if st.resultOpen then
    if st.userpicsCount > 0 then
      some ({ st with mainContent := st.mainContent ++ kLineBreak }, r = .success)
    else
      some (st, true)
  else none

/-- The `TypeString` lambda of `writeChatsStart` (source lines 637–648);
note that both channel types map to `"Private channel"` in the source. -/
def TypeString : DialogType → Chars
  | .unknown => strL "(unknown)"
  | .personal => strL "Personal chat"
  | .bot => strL "Bot chat"
  | .privateGroup => strL "Private group"
  | .publicGroup => strL "Public group"
  | .privateChannel => strL "Private channel"
  | .publicChannel => strL "Private channel"

/-- The `NameString` lambda of `writeChatsStart` (source lines 649–665). -/
def NameString (name : Chars) (dtype : DialogType) : Chars :=
  if name ≠ [] then name
  else match dtype with
  | .unknown => strL "(unknown)"
  | .personal => strL "(deleted user)"
  | .bot => strL "(deleted bot)"
  | .privateGroup => strL "(deleted group)"
  | .publicGroup => strL "(deleted group)"
  | .privateChannel => strL "(deleted channel)"
  | .publicChannel => strL "(deleted channel)"

/-- One dialog's entry in the chats summary side file (source
lines 670–677). -/
def chatsEntry (dialog : DialogInfo) : Chars :=
  SerializeKeyValue [
    (strL "Name", NameString dialog.name dialog.dtype),
    (strL "Type", TypeString dialog.dtype),
    (strL "Content", dialog.relativePath ++ strL "messages.txt")]

/-- `writeChatsStart` (source lines 624–689); `r1` answers the side-file
write, `r2` the header write to the main file.  An empty dialog list is a
no-op success; otherwise `_dialogsCount` is recorded before any write. -/
def writeChatsStart (st : WState) (list : List DialogInfo)
    (listName : Chars) (fileName : Chars) (r1 r2 : FileResult) :
    Option (WState × Bool) :=
  if st.resultOpen then
    if list = [] then
      some (st, true)
    else
      let st := { st with dialogsCount := list.length }
      let full := JoinList kLineBreak (list.map chatsEntry)
      let st := { st with sideWrites := st.sideWrites ++ [(fileName, full)] }
      if r1 = .success then
        let header :=
          listName ++ strL " (" ++ NumberToString list.length ++ strL ") - " ++
          fileName ++ kLineBreak ++ kLineBreak
        some ({ st with mainContent := st.mainContent ++ header }, r2 = .success)
      else
        some (st, false)
  else none

/-- The zero-padded running index generated by `writeChatStart` (source
lines 695–696): the 1-based running index `idx1`, padded to the width of
the decimal form of `count - 1`. -/
def chatIndexString (count : Nat) (idx1 : Nat) : Chars :=
  NumberToString idx1 (NumberToString (count - 1)).length '0'

/-- `writeChatStart` (source lines 691–701).  Both `Expects` preconditions
(`_chat == nullptr`, `_dialogIndex < _dialogsCount`) become the `none`
case.  The generated index string is computed and, as in the source,
not used for the file path. -/
def writeChatStart (st : WState) (data : DialogInfo) : Option (WState × Bool) :=
  if ¬st.chatOpen ∧ st.dialogIndex < st.dialogsCount then
    let _number := chatIndexString st.dialogsCount (st.dialogIndex + 1)
    some ({ st with
      dialogIndex := st.dialogIndex + 1,
      chatOpen := true,
      chatContent := [],
      dialogEmpty := true,
      dialogOnlyMy := data.onlyMyMessages }, true)
  else none

/-- `writeChatSlice` (source lines 703–721): serialize the batch, join
with one line break (each serialized message already ends in one), and
blank-line-separate from previous batches via the `_chat->empty()`
check. -/
def writeChatSlice (st : WState) (data : MessagesSlice) (r : FileResult) :
    Option (WState × Bool) :=
  if st.chatOpen ∧ data.list ≠ [] then
    let st := { st with dialogEmpty := false }
    let list := data.list.map
      (fun message => SerializeMessage message data.peers st.settingsDomain)
    let full :=
      if st.chatContent = [] then JoinList kLineBreak list
      else kLineBreak ++ JoinList kLineBreak list
    some ({ st with chatContent := st.chatContent ++ full }, r = .success)
  else none

/-- The two placeholder sentences of `writeChatEnd`. -/
def noMessagesSentence : Chars := strL "No messages in this chat."

/-- The only-my-messages placeholder sentence of `writeChatEnd`. -/
def noOutgoingSentence : Chars := strL "No outgoing messages in this chat."

/-- `writeChatEnd` (source lines 723–733): when no batch was written, the
placeholder sentence is handed to the sink, whose result `r` is discarded
by the source; the call always returns `true`. -/
def writeChatEnd (st : WState) (r : FileResult) : Option (WState × Bool) :=
  if st.chatOpen then
    let st :=
      if st.dialogEmpty then
        { st with chatContent := st.chatContent ++
            (if st.dialogOnlyMy then noOutgoingSentence else noMessagesSentence) }
      else st
    some ({ st with chatOpen := false }, true)
  else none

/-- A sequence of `writeDialogSlice`/`writeLeftChannelSlice` calls on the
open per-dialog file, each answered with a successful sink write. -/
def runSlices (st : WState) (slices : List MessagesSlice) : Option WState :=
  slices.foldlM
    (fun acc slice => (writeChatSlice acc slice .success).map Prod.fst) st

/-- One dialog of a dialogs phase: `writeDialogStart` /
`writeLeftChannelStart`, the given slices, then the matching `End`; all
sink writes answered with success. -/
def runDialog (st : WState) (data : DialogInfo) (slices : List MessagesSlice) :
    Option WState := do
  let s1 ← writeChatStart st data
  let s2 ← runSlices s1.1 slices
  let s3 ← writeChatEnd s2 .success
  pure s3.1

/-- A whole dialogs (or left-channels) phase after its group-level
`Start`: each dialog in order. -/
def runDialogPhase (st : WState) (ds : List (DialogInfo × List MessagesSlice)) :
    Option WState :=
  match ds with
  | [] => some st
  | (d, slices) :: rest => do
    let st1 ← runDialog st d slices
    runDialogPhase st1 rest

/-- The documented protocol for the two dialog groups (spec §4.5/§6):
`writeDialogsStart` with the first group, then per dialog
Start/Slice*/End; then `writeLeftChannelsStart` with the second group and
the same shape (`writeDialogsEnd`/`writeLeftChannelsEnd` are no-op
successes, source lines 600–602 and 620–622).  All sink writes succeed.
`none` means some call hit an `Expects` precondition. -/
def runProtocol (ds ls : List (DialogInfo × List MessagesSlice)) : Option WState := do
  let s1 ← writeChatsStart initialState (ds.map Prod.fst)
    (strL "Chats") (strL "chats.txt") .success .success
  let s2 ← runDialogPhase s1.1 ds
  let s3 ← writeChatsStart s2 (ls.map Prod.fst)
    (strL "Left chats") (strL "left_chats.txt") .success .success
  runDialogPhase s3.1 ls

/-! ## Helper lemmas -/

theorem concatAll_nil : concatAll [] = [] := rfl

theorem concatAll_cons (x : Chars) (xs : List Chars) :
    concatAll (x :: xs) = x ++ concatAll xs := rfl

/-- A left fold that only ever appends equals the concatenation of the
per-element renderings. -/
theorem foldl_append_eq {β : Type} (f : Chars → β → Chars) (g : β → Chars)
    (hf : ∀ (a : Chars) (x : β), f a x = a ++ g x) :
    ∀ (l : List β) (init : Chars),
      l.foldl f init = init ++ concatAll (l.map g) := by
  intro l
  induction l with
  | nil => intro init; simp [concatAll]
  | cons x xs ih =>
    intro init
    simp only [List.foldl_cons, List.map_cons, concatAll_cons, hf]
    rw [ih, List.append_assoc]

/-- The loop body of `SerializeKeyValue` only appends. -/
theorem serializeKeyValue_body (a : Chars) (kv : Chars × Chars) :
    (if kv.2 = [] then a
     else
       match indexOfFrom kv.2 '\n' 0 with
       | some newline =>
         a ++ kv.1 ++ [':'] ++ kLineBreak ++ SerializeMultiline kv.2 newline
       | none => a ++ kv.1 ++ [':', ' '] ++ kv.2 ++ kLineBreak) =
    a ++ (if kv.2 = [] then [] else renderPair kv) := by
  by_cases h : kv.2 = []
  · simp [h]
  · simp only [h, if_neg, renderPair]
    cases indexOfFrom kv.2 '\n' 0 <;> simp

/-- Dropping the empty-valued pairs before rendering. -/
theorem concatAll_dropEmpty (values : List (Chars × Chars)) :
    concatAll (values.map (fun kv => if kv.2 = [] then [] else renderPair kv)) =
    concatAll ((values.filter (fun p => p.2 ≠ [])).map renderPair) := by
  induction values with
  | nil => rfl
  | cons kv rest ih =>
    by_cases h : kv.2 = [] <;>
      simp [List.filter_cons, h, concatAll_cons, ih]

/-- `SerializeKeyValue` as filter-then-render. -/
theorem serializeKeyValue_eq (values : List (Chars × Chars)) :
    SerializeKeyValue values =
      concatAll ((values.filter (fun p => p.2 ≠ [])).map renderPair) := by
  unfold SerializeKeyValue
  rw [foldl_append_eq _ (fun kv => if kv.2 = [] then [] else renderPair kv)
    serializeKeyValue_body values []]
  simpa using concatAll_dropEmpty values

/-! ## Claims -/

/-- C1: for every message whose media variant is the unsupported tag,
`SerializeMessage` returns exactly the fixed warning string and emits no
other field, regardless of every other field of the message. -/
theorem serializeMessage_unsupported_warning
    (message : Message) (peers : PeerMap) (internalLinksDomain : Chars)
    (h : message.media.content = .unsupported) :
    SerializeMessage message peers internalLinksDomain = unsupportedWarning := by
  simp [SerializeMessage, h]

/-- Witness for C1: a message with unsupported media and arbitrary other
fields serializes to the fixed warning string. -/
theorem serializeMessage_unsupported_warning_witness :
    SerializeMessage
      { id := 7, date := 5, edited := 6, text := strL "hello",
        media := { content := .unsupported, ttl := 3 } } [] (strL "https://t.me/") =
    unsupportedWarning :=
  serializeMessage_unsupported_warning _ _ _ rfl

/-- C8: the key-value serializer drops every pair with an empty value,
keeps all other pairs in input order (duplicates allowed), and renders a
kept single-line pair as `label: value` followed by the line
terminator. -/
theorem serializeKeyValue_drops_empty_renders_in_order
    (values : List (Chars × Chars)) (k v : Chars) :
    SerializeKeyValue values =
      concatAll ((values.filter (fun p => p.2 ≠ [])).map renderPair)
    ∧ (v ≠ [] → indexOfFrom v '\n' 0 = none →
        renderPair (k, v) = k ++ strL ": " ++ v ++ kLineBreak) := by
  refine ⟨serializeKeyValue_eq values, fun _ hnl => ?_⟩
  simp [renderPair, hnl]
  rfl

/-- Witness for C8, at a list with an empty-valued pair, a duplicate label
and a single-line pair. -/
theorem serializeKeyValue_drops_empty_renders_in_order_witness :
    SerializeKeyValue [(strL "A", strL "1"), (strL "B", []), (strL "A", strL "2")] =
      concatAll (([(strL "A", strL "1"), (strL "B", []), (strL "A", strL "2")].filter
        (fun p => p.2 ≠ [])).map renderPair)
    ∧ renderPair (strL "A", strL "1") = strL "A" ++ strL ": " ++ strL "1" ++ kLineBreak :=
  ⟨(serializeKeyValue_drops_empty_renders_in_order _ (strL "A") (strL "1")).1,
   (serializeKeyValue_drops_empty_renders_in_order [] (strL "A") (strL "1")).2
     (by decide) (by decide)⟩

/-- C3 (the violated direction): `writeChatEnd` hands the empty-chat
placeholder sentence to the file sink but discards the sink's result and
reports success even when that write failed. -/
theorem writeChatEnd_swallows_write_failure
    (st : WState) (h1 : st.chatOpen = true) (h2 : st.dialogEmpty = true) :
    (writeChatEnd st .failure).map Prod.snd = some true := by
  simp [writeChatEnd, h1, h2]

/-- Witness for C3: a concrete empty-dialog state where the placeholder
write fails and the call still reports success. -/
theorem writeChatEnd_swallows_write_failure_witness :
    (writeChatEnd
      { resultOpen := true, chatOpen := true, dialogEmpty := true,
        dialogOnlyMy := true } .failure).map Prod.snd = some true :=
  writeChatEnd_swallows_write_failure _ rfl rfl

/-- C7: with a zero userpics count, `writeUserpicsStart` and
`writeUserpicsEnd` write nothing to the main file and return success; with
a positive count, `writeUserpicsEnd` appends exactly one line-break
separator to the main file. -/
theorem userpics_empty_writes_nothing (st : WState) (r : FileResult)
    (h : st.resultOpen = true) :
    writeUserpicsStart st 0 r = some ({ st with userpicsCount := 0 }, true)
    ∧ (st.userpicsCount = 0 → writeUserpicsEnd st r = some (st, true))
    ∧ (st.userpicsCount > 0 →
        writeUserpicsEnd st r =
          some ({ st with mainContent := st.mainContent ++ kLineBreak },
            decide (r = .success))) := by
  refine ⟨?_, fun h0 => ?_, fun hp => ?_⟩
  · simp [writeUserpicsStart, h]
  · simp [writeUserpicsEnd, h, h0]
  · simp [writeUserpicsEnd, h, Nat.not_eq_zero_of_lt hp, hp]

/-- Witness for C7 at a concrete session state. -/
theorem userpics_empty_writes_nothing_witness :
    writeUserpicsStart (initialState) 0 .failure =
      some ({ initialState with userpicsCount := 0 }, true)
    ∧ writeUserpicsEnd (initialState) .failure = some (initialState, true) :=
  ⟨(userpics_empty_writes_nothing (initialState) .failure rfl).1,
   (userpics_empty_writes_nothing (initialState) .failure rfl).2.1 rfl⟩

/-- C10: a nonempty userpics slice writes one terminated line per entry in
input order — `(deleted photo)` for a zero date, the formatted date and
`(file unavailable)` for a missing path, else the formatted date and the
relative path. -/
theorem writeUserpicsSlice_one_line_per_entry
    (st : WState) (list : List Userpic) (r : FileResult)
    (h : st.resultOpen = true) (hne : list ≠ []) :
    writeUserpicsSlice st list r =
      some ({ st with mainContent := (st.mainContent ++
        concatAll (list.map (fun userpic =>
          (if userpic.date = 0 then
            strL "(deleted photo)"
          else
            FormatDateTime userpic.date ++ strL " - " ++
            (if userpic.image.file.relativePath = [] then
              strL "(file unavailable)"
            else
              userpic.image.file.relativePath)) ++ kLineBreak))) },
        decide (r = .success)) := by
  have hbytes : userpicsSliceBytes list =
      concatAll (list.map (fun userpic =>
        (if userpic.date = 0 then
          strL "(deleted photo)"
        else
          FormatDateTime userpic.date ++ strL " - " ++
          (if userpic.image.file.relativePath = [] then
            strL "(file unavailable)"
          else
            userpic.image.file.relativePath)) ++ kLineBreak)) := by
    unfold userpicsSliceBytes
    rw [foldl_append_eq _
      (fun userpic =>
        (if userpic.date = 0 then
          strL "(deleted photo)"
        else
          FormatDateTime userpic.date ++ strL " - " ++
          (if userpic.image.file.relativePath = [] then
            strL "(file unavailable)"
          else
            userpic.image.file.relativePath)) ++ kLineBreak)
      (fun a u => by rw [List.append_assoc]) list []]
    simp
  simp [writeUserpicsSlice, h, hne, hbytes]

/-- Witness for C10: a slice with one entry of each kind. -/
theorem writeUserpicsSlice_one_line_per_entry_witness :
    writeUserpicsSlice initialState
      [{ date := 0 }, { date := 9 },
       { date := 9, image := { file := { relativePath := strL "p.jpg" } } }]
      .success =
      some ({ initialState with mainContent :=
        (strL "(deleted photo)" ++ kLineBreak ++
        (FormatDateTime 9 ++ strL " - " ++ strL "(file unavailable)" ++ kLineBreak ++
        (FormatDateTime 9 ++ strL " - " ++ strL "p.jpg" ++ kLineBreak ++ []))) }, true) := by
  have := writeUserpicsSlice_one_line_per_entry initialState
    [{ date := 0 }, { date := 9 },
     { date := 9, image := { file := { relativePath := strL "p.jpg" } } }]
    .success rfl (by decide)
  simpa [concatAll, initialState] using this

/-- Unfolding `runSlices` one step. -/
theorem runSlices_cons (st : WState) (s : MessagesSlice) (rest : List MessagesSlice) :
    runSlices st (s :: rest) =
      ((writeChatSlice st s .success).map Prod.fst).bind
        (fun st1 => runSlices st1 rest) := by
  cases hw : writeChatSlice st s .success <;>
    simp [runSlices, hw]

/-- Running a sequence of nonempty slices on an open per-dialog file
succeeds, keeps the file open, preserves the counters and the
only-my-messages flag, and leaves the empty flag set exactly when no slice
was run. -/
theorem runSlices_spec (slices : List MessagesSlice) :
    ∀ st : WState, st.chatOpen = true → (∀ s ∈ slices, s.list ≠ []) →
    ∃ st2, runSlices st slices = some st2
      ∧ st2.chatOpen = true
      ∧ st2.resultOpen = st.resultOpen
      ∧ st2.dialogIndex = st.dialogIndex
      ∧ st2.dialogsCount = st.dialogsCount
      ∧ st2.dialogOnlyMy = st.dialogOnlyMy
      ∧ st2.dialogEmpty = (if slices = [] then st.dialogEmpty else false)
      ∧ (slices = [] → st2 = st) := by
  induction slices with
  | nil =>
    intro st hopen _
    exact ⟨st, rfl, hopen, rfl, rfl, rfl, rfl, by simp, fun _ => rfl⟩
  | cons s rest ih =>
    intro st hopen hne
    have hs : s.list ≠ [] := hne s (by simp)
    cases hw : writeChatSlice st s .success with
    | none => simp [writeChatSlice, hopen, hs] at hw
    | some p =>
      obtain ⟨st1, b1⟩ := p
      have hw2 := hw
      simp only [writeChatSlice, hopen, hs, ne_eq, not_false_eq_true, and_self,
        if_true, true_and, Option.some.injEq, Prod.mk.injEq] at hw2
      have h1 : st1.chatOpen = true ∧ st1.resultOpen = st.resultOpen
          ∧ st1.dialogIndex = st.dialogIndex ∧ st1.dialogsCount = st.dialogsCount
          ∧ st1.dialogOnlyMy = st.dialogOnlyMy ∧ st1.dialogEmpty = false := by
        rw [← hw2.1]
        simp [hopen]
      obtain ⟨st2, hrun, ho2, hr2, hi2, hc2, hm2, he2, _⟩ :=
        ih st1 h1.1 (fun x hx => hne x (by simp [hx]))
      refine ⟨st2, ?_, ho2, ?_, ?_, ?_, ?_, ?_, ?_⟩
      · rw [runSlices_cons, hw]
        simpa using hrun
      · rw [hr2, h1.2.1]
      · rw [hi2, h1.2.2.1]
      · rw [hc2, h1.2.2.2.1]
      · rw [hm2, h1.2.2.2.2.1]
      · rw [he2, h1.2.2.2.2.2]
        simp
      · intro hcon
        cases hcon

/-- C6: over a full Start / Slice* / End round on one dialog, `writeChatEnd`
appends exactly one placeholder sentence to the per-dialog file when no
slice was written — the only-my-messages sentence when the dialog carries
that filter, the plain one otherwise — and appends nothing when at least
one slice was written. -/
theorem writeChatEnd_placeholder_iff_no_slice
    (st : WState) (d : DialogInfo) (slices : List MessagesSlice) (r : FileResult)
    (hopen : st.chatOpen = false) (hidx : st.dialogIndex < st.dialogsCount)
    (hne : ∀ s ∈ slices, s.list ≠ []) :
    ∃ st1 st2 st3,
      writeChatStart st d = some (st1, true)
      ∧ runSlices st1 slices = some st2
      ∧ writeChatEnd st2 r = some (st3, true)
      ∧ st3.chatContent = st2.chatContent ++
          (if slices = [] then
            (if d.onlyMyMessages then noOutgoingSentence else noMessagesSentence)
          else [])
      ∧ (slices = [] → st2.chatContent = []) := by
  have hstart : writeChatStart st d =
      some ({ st with
        dialogIndex := st.dialogIndex + 1,
        chatOpen := true,
        chatContent := [],
        dialogEmpty := true,
        dialogOnlyMy := d.onlyMyMessages }, true) := by
    simp [writeChatStart, hopen, hidx]
  set st1 : WState := { st with
    dialogIndex := st.dialogIndex + 1,
    chatOpen := true,
    chatContent := [],
    dialogEmpty := true,
    dialogOnlyMy := d.onlyMyMessages } with hst1
  obtain ⟨st2, hrun, ho2, _, _, _, hm2, he2, hid2⟩ :=
    runSlices_spec slices st1 rfl hne
  by_cases hsl : slices = []
  · have hst2 : st2 = st1 := hid2 hsl
    have hend : writeChatEnd st2 r =
        some ({ st2 with
          chatContent := st2.chatContent ++
            (if st2.dialogOnlyMy then noOutgoingSentence else noMessagesSentence),
          chatOpen := false }, true) := by
      have hemp : st2.dialogEmpty = true := by rw [hst2]
      simp [writeChatEnd, ho2, hemp]
    refine ⟨st1, st2, _, hstart, hrun, hend, ?_, fun _ => by rw [hst2]⟩
    have hmy : st2.dialogOnlyMy = d.onlyMyMessages := by rw [hst2]
    simp [hsl, hmy]
  · have hemp : st2.dialogEmpty = false := by
      rw [he2]
      simp [hsl]
    have hend : writeChatEnd st2 r =
        some ({ st2 with chatOpen := false }, true) := by
      simp [writeChatEnd, ho2, hemp]
    refine ⟨st1, st2, _, hstart, hrun, hend, ?_, fun hcon => absurd hcon hsl⟩
    simp [hsl]

/-- Witness for C6: a fresh one-dialog session with the only-my-messages
filter and no slices ends with exactly the outgoing-messages sentence. -/
theorem writeChatEnd_placeholder_iff_no_slice_witness :
    ∃ st1 st2 st3,
      writeChatStart { initialState with dialogsCount := 1 }
        { onlyMyMessages := true } = some (st1, true)
      ∧ runSlices st1 [] = some st2
      ∧ writeChatEnd st2 .failure = some (st3, true)
      ∧ st3.chatContent = st2.chatContent ++
          (if ([] : List MessagesSlice) = [] then
            (if ({ onlyMyMessages := true } : DialogInfo).onlyMyMessages then
              noOutgoingSentence
            else noMessagesSentence)
          else [])
      ∧ (([] : List MessagesSlice) = [] → st2.chatContent = []) :=
  writeChatEnd_placeholder_iff_no_slice { initialState with dialogsCount := 1 }
    { onlyMyMessages := true } [] .failure rfl (by decide) (by simp)

/-- `writeChatStart` accepts exactly when no per-dialog file is open and
the shared running index is below the recorded group count. -/
theorem writeChatStart_accepts (st : WState) (d : DialogInfo) :
    (st.chatOpen = false ∧ st.dialogIndex < st.dialogsCount →
      writeChatStart st d = some ({ st with
        dialogIndex := st.dialogIndex + 1,
        chatOpen := true,
        chatContent := [],
        dialogEmpty := true,
        dialogOnlyMy := d.onlyMyMessages }, true))
    ∧ (¬(st.chatOpen = false ∧ st.dialogIndex < st.dialogsCount) →
      writeChatStart st d = none) := by
  constructor
  · intro ⟨h1, h2⟩
    simp [writeChatStart, h1, h2]
  · intro h
    rcases Decidable.not_and_iff_or_not.mp h with h1 | h2
    · have : st.chatOpen = true := by
        cases hco : st.chatOpen
        · exact absurd hco h1
        · rfl
      simp [writeChatStart, this]
    · simp [writeChatStart, h2]

/-- One full dialog round from a closed-file state: accepted exactly when
the running index is below the count; on success the index advances by
one, everything else relevant is preserved. -/
theorem runDialog_spec (st : WState) (d : DialogInfo) (slices : List MessagesSlice)
    (hopen : st.chatOpen = false) (hne : ∀ s ∈ slices, s.list ≠ []) :
    (st.dialogIndex < st.dialogsCount →
      ∃ st3, runDialog st d slices = some st3
        ∧ st3.chatOpen = false
        ∧ st3.resultOpen = st.resultOpen
        ∧ st3.dialogIndex = st.dialogIndex + 1
        ∧ st3.dialogsCount = st.dialogsCount)
    ∧ (¬st.dialogIndex < st.dialogsCount → runDialog st d slices = none) := by
  constructor
  · intro hidx
    have hstart := (writeChatStart_accepts st d).1 ⟨hopen, hidx⟩
    set st1 : WState := { st with
      dialogIndex := st.dialogIndex + 1,
      chatOpen := true,
      chatContent := [],
      dialogEmpty := true,
      dialogOnlyMy := d.onlyMyMessages } with hst1
    obtain ⟨st2, hrun, ho2, hr2, hi2, hc2, _, _, _⟩ :=
      runSlices_spec slices st1 rfl hne
    refine ⟨{ st2 with
        chatContent := if st2.dialogEmpty then st2.chatContent ++
          (if st2.dialogOnlyMy then noOutgoingSentence else noMessagesSentence)
        else st2.chatContent,
        chatOpen := false }, ?_, rfl, hr2, ?_, hc2⟩
    · have hend : writeChatEnd st2 .success = some ({ st2 with
          chatContent := if st2.dialogEmpty then st2.chatContent ++
            (if st2.dialogOnlyMy then noOutgoingSentence else noMessagesSentence)
          else st2.chatContent,
          chatOpen := false }, true) := by
        by_cases hemp : st2.dialogEmpty = true
        · simp [writeChatEnd, ho2, hemp]
        · have : st2.dialogEmpty = false := by
            cases h : st2.dialogEmpty
            · rfl
            · exact absurd h hemp
          simp [writeChatEnd, ho2, this]
      simp [runDialog, hstart, hrun, hend]
    · simp [hi2]
  · intro hidx
    have hstart := (writeChatStart_accepts st d).2 (by simp [hidx])
    simp [runDialog, hstart]

/-- A dialogs (or left-channels) phase from a closed-file state is accepted
exactly when it is empty or the running index plus its length stays within
the recorded count; on success the index advances by the length. -/
theorem runDialogPhase_spec (ds : List (DialogInfo × List MessagesSlice)) :
    ∀ st : WState, st.chatOpen = false →
    (∀ p ∈ ds, ∀ s ∈ p.2, s.list ≠ []) →
    ((runDialogPhase st ds).isSome ↔
      (ds = [] ∨ st.dialogIndex + ds.length ≤ st.dialogsCount))
    ∧ (∀ st4, runDialogPhase st ds = some st4 →
        st4.chatOpen = false
        ∧ st4.resultOpen = st.resultOpen
        ∧ st4.dialogIndex = st.dialogIndex + ds.length
        ∧ st4.dialogsCount = st.dialogsCount) := by
  induction ds with
  | nil =>
    intro st hopen _
    refine ⟨by simp [runDialogPhase], fun st4 h4 => ?_⟩
    obtain rfl : st = st4 := by simpa [runDialogPhase] using h4
    exact ⟨hopen, rfl, by simp, rfl⟩
  | cons p rest ih =>
    intro st hopen hne
    obtain ⟨d, slices⟩ := p
    have hslices : ∀ s ∈ slices, s.list ≠ [] := hne (d, slices) (by simp)
    by_cases hidx : st.dialogIndex < st.dialogsCount
    · obtain ⟨st3, hdia, ho3, hr3, hi3, hc3⟩ :=
        (runDialog_spec st d slices hopen hslices).1 hidx
      have hrest := ih st3 ho3 (fun q hq => hne q (by simp [hq]))
      constructor
      · rw [show runDialogPhase st ((d, slices) :: rest) = runDialogPhase st3 rest by
          simp [runDialogPhase, hdia]]
        rw [hrest.1, hi3, hc3]
        constructor
        · rintro (rfl | hr)
          · right
            simp only [List.length_cons, List.length_nil]
            omega
          · right
            simp only [List.length_cons]
            omega
        · rintro (hr | hr)
          · cases hr
          · right
            simp only [List.length_cons] at hr
            omega
      · intro st4 h4
        have h4r : runDialogPhase st3 rest = some st4 := by
          simpa [runDialogPhase, hdia] using h4
        obtain ⟨a, b, c, e⟩ := hrest.2 st4 h4r
        refine ⟨a, by rw [b, hr3], by rw [c, hi3]; simp [Nat.add_assoc, Nat.add_comm 1], by rw [e, hc3]⟩
    · have hdia := (runDialog_spec st d slices hopen hslices).2 hidx
      have hnone : runDialogPhase st ((d, slices) :: rest) = none := by
        simp [runDialogPhase, hdia]
      constructor
      · rw [hnone]
        simp only [Option.isSome_none, Bool.false_eq_true, false_iff]
        rintro (hr | hr)
        · cases hr
        · simp only [List.length_cons] at hr
          omega
      · intro st4 h4
        rw [hnone] at h4
        cases h4

/-- `writeChatsStart` with successful sink writes: always accepted from an
open session; records the group count only when the group is nonempty. -/
theorem writeChatsStart_spec (st : WState) (list : List DialogInfo)
    (listName fileName : Chars) (h : st.resultOpen = true) :
    ∃ st1, writeChatsStart st list listName fileName .success .success =
        some (st1, true)
      ∧ st1.chatOpen = st.chatOpen
      ∧ st1.resultOpen = true
      ∧ st1.dialogIndex = st.dialogIndex
      ∧ st1.dialogsCount = (if list = [] then st.dialogsCount else list.length) := by
  by_cases hl : list = []
  · exact ⟨st, by simp [writeChatsStart, h, hl], rfl, h, rfl, by simp [hl]⟩
  · cases hw : writeChatsStart st list listName fileName .success .success with
    | none => simp [writeChatsStart, h, hl] at hw
    | some p =>
      obtain ⟨st1, b1⟩ := p
      have hw2 := hw
      simp only [writeChatsStart, h, hl, if_true, if_false,
        reduceIte, Option.some.injEq, Prod.mk.injEq] at hw2
      obtain ⟨hrec, hb⟩ := hw2
      refine ⟨st1, ?_, ?_, ?_, ?_, ?_⟩
      · rw [← hb]
        simp
      · rw [← hrec]
      · rw [← hrec]
      · rw [← hrec]
      · rw [← hrec]
        simp [hl]

/-- C4 counterexample: the documented protocol with one dialog in each
group (no slices) is rejected — the left-channels phase hits
`writeChatStart`'s precondition, because the shared running index is not
reset while the recorded count is overwritten per group. -/
theorem runProtocol_rejects_both_groups_nonempty :
    (runProtocol [({}, [])] [({}, [])]).isSome = false := by decide

/-- C4 as amended: a conforming two-group sequence (nonempty batches) is
accepted without precondition failure exactly when one of the groups is
empty; with N ≥ 1 dialogs and M ≥ 1 left-channels the left-channels phase
violates `writeChatStart`'s `_dialogIndex < _dialogsCount`. -/
theorem runProtocol_accepted_iff (ds ls : List (DialogInfo × List MessagesSlice))
    (h1 : ∀ p ∈ ds, ∀ s ∈ p.2, s.list ≠ [])
    (h2 : ∀ p ∈ ls, ∀ s ∈ p.2, s.list ≠ []) :
    (runProtocol ds ls).isSome = true ↔ (ds = [] ∨ ls = []) := by
  obtain ⟨st1, hcs1, hco1, hro1, hdi1, hdc1⟩ :=
    writeChatsStart_spec initialState (ds.map Prod.fst)
      (strL "Chats") (strL "chats.txt") rfl
  have hco1a : st1.chatOpen = false := by
    rw [hco1]
    rfl
  have hdi1a : st1.dialogIndex = 0 := by
    rw [hdi1]
    rfl
  have hphase1 := runDialogPhase_spec ds st1 hco1a h1
  have hsome1 : (runDialogPhase st1 ds).isSome = true := by
    rw [hphase1.1]
    by_cases hd : ds = []
    · exact Or.inl hd
    · right
      rw [hdi1a, hdc1]
      simp [hd]
  obtain ⟨st2, hrun1⟩ := Option.isSome_iff_exists.mp hsome1
  obtain ⟨hco2, hro2, hdi2, hdc2⟩ := hphase1.2 st2 hrun1
  have hro2a : st2.resultOpen = true := by rw [hro2, hro1]
  obtain ⟨st3, hcs2, hco3, hro3, hdi3, hdc3⟩ :=
    writeChatsStart_spec st2 (ls.map Prod.fst)
      (strL "Left chats") (strL "left_chats.txt") hro2a
  have hco3a : st3.chatOpen = false := by rw [hco3, hco2]
  have hphase2 := runDialogPhase_spec ls st3 hco3a h2
  have hrp : runProtocol ds ls = runDialogPhase st3 ls := by
    simp [runProtocol, hcs1, hrun1, hcs2]
  have hidx3 : st3.dialogIndex = ds.length := by
    rw [hdi3, hdi2, hdi1a]
    simp
  rw [hrp, hphase2.1]
  constructor
  · rintro (hls | hc)
    · exact Or.inr hls
    · by_cases hls : ls = []
      · exact Or.inr hls
      · left
        rw [hidx3, hdc3] at hc
        simp only [List.map_eq_nil_iff, hls, if_false, List.length_map] at hc
        have hlen : ds.length = 0 := by omega
        exact List.length_eq_zero.mp hlen
  · rintro (hds | hls)
    · by_cases hls : ls = []
      · exact Or.inl hls
      · right
        rw [hidx3, hdc3]
        simp [hls, hds]
    · exact Or.inl hls

/-- Witness for the amended C4: with an empty first group, a one-dialog
left-channels group is accepted. -/
theorem runProtocol_accepted_iff_witness :
    (runProtocol [] [({}, [])]).isSome = true ↔
      (([] : List (DialogInfo × List MessagesSlice)) = [] ∨
        ([({}, [])] : List (DialogInfo × List MessagesSlice)) = []) :=
  runProtocol_accepted_iff [] [({}, [])] (by simp) (by simp)

/-! ### Decimal formatting lemmas (for C5) -/

/-- The fuel-based digit extraction agrees with `Nat.digits`. -/
theorem decimalDigitsAux_eq :
    ∀ fuel n, n ≤ fuel →
      decimalDigitsAux fuel n = (Nat.digits 10 n).map Nat.digitChar := by
  intro fuel
  induction fuel with
  | zero =>
    intro n hn
    obtain rfl : n = 0 := Nat.le_zero.mp hn
    simp [decimalDigitsAux]
  | succ fuel ih =>
    intro n hn
    by_cases h0 : n = 0
    · subst h0
      simp [decimalDigitsAux]
    · have hpos : 0 < n := Nat.pos_of_ne_zero h0
      rw [decimalDigitsAux, if_neg h0,
        Nat.digits_def' (by norm_num : (1:Nat) < 10) hpos]
      have hdiv : n / 10 ≤ fuel := by
        have := Nat.div_lt_self hpos (by norm_num : (1:Nat) < 10)
        omega
      rw [ih (n / 10) hdiv]
      simp

/-- `decimalDigits` for a nonzero number, via `Nat.digits`. -/
theorem decimalDigits_eq (n : Nat) (h : n ≠ 0) :
    decimalDigits n = ((Nat.digits 10 n).map Nat.digitChar).reverse := by
  rw [decimalDigits, if_neg h, decimalDigitsAux_eq n n (Nat.le_refl n)]

/-- Length of the decimal form. -/
theorem decLen_eq (n : Nat) (h : n ≠ 0) :
    decLen n = (Nat.digits 10 n).length := by
  rw [decLen, decimalDigits_eq n h]
  simp

theorem decLen_zero : decLen 0 = 1 := rfl

theorem decLen_pos (n : Nat) : 1 ≤ decLen n := by
  by_cases h : n = 0
  · subst h
    simp [decLen_zero]
  · rw [decLen_eq n h]
    have := (Nat.digits_ne_nil_iff_ne_zero (b := 10)).mpr h
    cases hd : Nat.digits 10 n with
    | nil => exact absurd hd this
    | cons a l => simp

/-- Plain `NumberToString` (default width 1) is just the decimal form. -/
theorem numberToString_plain (n : Nat) : NumberToString n = decimalDigits n := by
  have := decLen_pos n
  rw [NumberToString]
  rw [decLen] at this
  have hz : 1 - (decimalDigits n).length = 0 := by omega
  rw [hz]
  simp

/-- Length of the zero-padded form. -/
theorem numberToString_length (n digits : Nat) (filler : Char) :
    (NumberToString n digits filler).length = max digits (decLen n) := by
  rw [NumberToString, decLen]
  have := decLen_pos n
  rw [decLen] at this
  simp only [List.length_append, List.length_replicate]
  omega

/-- The decimal digit characters decode back to their digit values. -/
theorem digitChar_toNat : ∀ d < 10, (Nat.digitChar d).toNat = 48 + d := by decide

/-- Folding the decimal reading over a big-endian digit-character list. -/
theorem parseDec_digit_list :
    ∀ L : List Nat, (∀ d ∈ L, d < 10) → ∀ a : Nat,
      List.foldl (fun a c => 10 * a + (Char.toNat c - 48)) a
        ((L.map Nat.digitChar).reverse) =
      a * 10 ^ L.length + Nat.ofDigits 10 L := by
  intro L
  induction L with
  | nil =>
    intro _ a
    simp [Nat.ofDigits_nil]
  | cons d L ih =>
    intro hd a
    have hd10 : d < 10 := hd d (by simp)
    simp only [List.map_cons, List.reverse_cons, List.foldl_append,
      List.foldl_cons, List.foldl_nil]
    rw [ih (fun x hx => hd x (by simp [hx])) a]
    rw [digitChar_toNat d hd10]
    rw [Nat.ofDigits_cons]
    simp only [List.length_cons, Nat.add_sub_cancel_left]
    ring

/-- `parseDec` inverts `decimalDigits`. -/
theorem parseDec_decimalDigits (n : Nat) : parseDec (decimalDigits n) = n := by
  by_cases h : n = 0
  · subst h
    decide
  · rw [decimalDigits_eq n h, parseDec]
    rw [parseDec_digit_list (Nat.digits 10 n)
      (fun d hd => Nat.digits_lt_base (by norm_num) hd) 0]
    simp [Nat.ofDigits_digits]

/-- Leading zero padding does not change the decoded value. -/
theorem parseDec_padded (k : Nat) (s : Chars) :
    parseDec (List.replicate k '0' ++ s) = parseDec s := by
  have hzeros : ∀ j, List.foldl (fun a c => 10 * a + (Char.toNat c - 48)) 0
      (List.replicate j '0') = 0 := by
    intro j
    induction j with
    | zero => rfl
    | succ j ihj => simpa [List.replicate_succ] using ihj
  rw [parseDec, List.foldl_append, hzeros k]
  rfl

/-- `parseDec` inverts the zero-padded form. -/
theorem parseDec_numberToString (n digits : Nat) :
    parseDec (NumberToString n digits '0') = n := by
  rw [NumberToString, parseDec_padded, parseDec_decimalDigits]

/-- Every number is below ten to its digit count. -/
theorem lt_pow_decLen (n : Nat) : n < 10 ^ decLen n := by
  by_cases h : n = 0
  · subst h
    decide
  · rw [decLen_eq n h]
    exact Nat.lt_base_pow_length_digits (by norm_num)

/-- A longer decimal form forces the value past the shorter power. -/
theorem pow_le_of_decLen_lt (d i : Nat) (hi : i ≠ 0) (h : d < decLen i) :
    10 ^ d ≤ i := by
  have hbound := Nat.base_pow_length_digits_le 10 i (by norm_num) hi
  rw [← decLen_eq i hi] at hbound
  have hpow : 10 ^ (d + 1) ≤ 10 ^ decLen i :=
    Nat.pow_le_pow_right (by norm_num) (by omega)
  have : 10 ^ (d + 1) = 10 ^ d * 10 := by ring
  omega

/-- C5 counterexample: for a group of 10 dialogs the source pads to the
width of `9` (one digit), so the tenth generated index string `"10"` is
longer than the first — the generated strings do not all have the length
digit-count(N−1). -/
theorem chatIndexString_unequal_width :
    (chatIndexString 10 1).length = 1
    ∧ (chatIndexString 10 10).length = 2
    ∧ ¬((chatIndexString 10 10).length = (NumberToString (10 - 1)).length) := by
  decide

/-- C5 as amended: the i-th generated index string decodes back to `i`
(so the indices strictly increase from 1 in input order), and its length
is `max (digit-count (N−1)) (digit-count i)` — equal to
digit-count(N−1) except that for `i = N = 10 ^ digit-count (N−1)` (N a
power of ten) the final index is one digit longer. -/
theorem chatIndexString_spec (N i : Nat) (h1 : 1 ≤ i) (h2 : i ≤ N) :
    parseDec (chatIndexString N i) = i
    ∧ (chatIndexString N i).length = max (decLen (N - 1)) (decLen i)
    ∧ (decLen (N - 1) < decLen i → i = N ∧ N = 10 ^ decLen (N - 1)) := by
  have hlen : (NumberToString (N - 1)).length = decLen (N - 1) := by
    rw [numberToString_plain, decLen]
  refine ⟨?_, ?_, ?_⟩
  · rw [chatIndexString, parseDec_numberToString]
  · rw [chatIndexString, hlen, numberToString_length]
  · intro hlt
    have hi0 : i ≠ 0 := by omega
    have hge : 10 ^ decLen (N - 1) ≤ i := pow_le_of_decLen_lt _ i hi0 hlt
    have hub : N - 1 < 10 ^ decLen (N - 1) := lt_pow_decLen (N - 1)
    omega

/-- Witness for the amended C5, at N = 23 and i = 7: the string is `"07"`
of width 2 = digit-count(22), decoding to 7. -/
theorem chatIndexString_spec_witness :
    parseDec (chatIndexString 23 7) = 7
    ∧ (chatIndexString 23 7).length = max (decLen (23 - 1)) (decLen 7)
    ∧ (decLen (23 - 1) < decLen 7 → 7 = 23 ∧ 23 = 10 ^ decLen (23 - 1)) :=
  chatIndexString_spec 23 7 (by decide) (by decide)

/-! ### Key analysis of `messageValues` (for C9) -/


theorem keysP_nil (P : Chars → Prop) :
    ∀ k v, (k, v) ∈ ([] : List (Chars × Chars)) → P k := by
  simp

theorem keysP_append {P : Chars → Prop} {a b : List (Chars × Chars)}
    (ha : ∀ k v, (k, v) ∈ a → P k) (hb : ∀ k v, (k, v) ∈ b → P k) :
    ∀ k v, (k, v) ∈ a ++ b → P k := by
  intro k v hm
  rcases List.mem_append.mp hm with h | h
  · exact ha k v h
  · exact hb k v h

theorem keysP_ite {P : Chars → Prop} {c : Prop} [Decidable c]
    {a b : List (Chars × Chars)}
    (ha : ∀ k v, (k, v) ∈ a → P k) (hb : ∀ k v, (k, v) ∈ b → P k) :
    ∀ k v, (k, v) ∈ (if c then a else b) → P k := by
  by_cases h : c
  · rw [if_pos h]
    exact ha
  · rw [if_neg h]
    exact hb

theorem keysP_pushIf {P : Chars → Prop} {k0 v0 : Chars} (hk : P k0) :
    ∀ k v, (k, v) ∈ pushIf k0 v0 → P k := by
  intro k v hm
  rw [pushIf] at hm
  by_cases hv : v0 = []
  · rw [if_pos hv] at hm
    cases hm
  · rw [if_neg hv] at hm
    obtain ⟨rfl, rfl⟩ := Prod.mk.injEq .. ▸ List.mem_singleton.mp hm
    exact hk

theorem keysP_pushFrom {P : Chars → Prop} {m : Message} {peers : PeerMap}
    {label : Chars} (hk : P label) :
    ∀ k v, (k, v) ∈ pushFrom m peers label → P k := by
  rw [pushFrom]
  exact keysP_ite (keysP_pushIf hk) (keysP_nil P)

theorem keysP_pushReplyToMsgId {P : Chars → Prop} {m : Message}
    {label : Chars} (hk : P label) :
    ∀ k v, (k, v) ∈ pushReplyToMsgId m label → P k := by
  rw [pushReplyToMsgId]
  exact keysP_ite (keysP_pushIf hk) (keysP_nil P)

theorem keysP_pushUserNames {P : Chars → Prop} {peers : PeerMap}
    {data : List Nat} {l1 l2 : Chars} (h1 : P l1) (h2 : P l2) :
    ∀ k v, (k, v) ∈ pushUserNames peers data l1 l2 → P k := by
  rw [pushUserNames]
  cases data.map (wrapUserName peers) with
  | nil => exact keysP_nil P
  | cons x xs =>
    cases xs with
    | nil => exact keysP_pushIf h1
    | cons y ys => exact keysP_pushIf h2

theorem keysP_pushTTL {P : Chars → Prop} {m : Message} {label : Chars}
    (hk : P label) :
    ∀ k v, (k, v) ∈ pushTTL m label → P k := by
  rw [pushTTL]
  exact keysP_ite (keysP_pushIf hk) (keysP_nil P)

theorem keysP_pushPath {P : Chars → Prop} {file : DataFile} {label name : Chars}
    (hk : P label) :
    ∀ k v, (k, v) ∈ pushPath file label name → P k := by
  rw [pushPath]
  exact keysP_pushIf hk

theorem keysP_pushPhoto {P : Chars → Prop} {image : Image}
    (h1 : P (strL "Photo")) (h2 : P (strL "Width")) (h3 : P (strL "Height")) :
    ∀ k v, (k, v) ∈ pushPhoto image → P k := by
  rw [pushPhoto]
  exact keysP_append (keysP_pushPath h1)
    (keysP_ite (keysP_append (keysP_pushIf h2) (keysP_pushIf h3)) (keysP_nil P))

theorem keysP_pushActor {P : Chars → Prop} {m : Message} {peers : PeerMap}
    (hk : P (strL "Actor")) :
    ∀ k v, (k, v) ∈ pushActor m peers → P k := by
  rw [pushActor]
  exact keysP_pushFrom hk

theorem keysP_pushAction {P : Chars → Prop} {action : Chars}
    (hk : P (strL "Action")) :
    ∀ k v, (k, v) ∈ pushAction action → P k := by
  rw [pushAction]
  exact keysP_pushIf hk

/-- No pair pushed by the action dispatch carries one of the three base
labels. -/
theorem actionValues_keys (m : Message) (peers : PeerMap) :
    ∀ k v, (k, v) ∈ actionValues m peers →
      k ≠ strL "ID" ∧ k ≠ strL "Date" ∧ k ≠ strL "Edited" := by
  cases hac : m.action
  case secureValuesSent types =>
    simp only [actionValues, hac]
    apply keysP_append
    · apply keysP_pushAction
      decide
    · rcases hl : types.map secureValueText with _ | ⟨x, _ | ⟨y, ys⟩⟩
      · exact keysP_nil _
      · exact keysP_pushIf (by decide)
      · exact keysP_pushIf (by decide)
  all_goals
    simp only [actionValues, hac] <;>
    repeat' first
      | apply keysP_append
      | apply keysP_pushActor
      | apply keysP_pushAction
      | apply keysP_pushUserNames
      | apply keysP_pushFrom
      | apply keysP_pushReplyToMsgId
      | apply keysP_pushTTL
      | apply keysP_pushPhoto
      | apply keysP_pushPath
      | apply keysP_pushIf
      | apply keysP_ite
      | exact keysP_nil _
      | decide

/-- No pair pushed by the non-action block carries a base label. -/
theorem nonActionValues_keys (m : Message) (peers : PeerMap) :
    ∀ k v, (k, v) ∈ nonActionValues m peers →
      k ≠ strL "ID" ∧ k ≠ strL "Date" ∧ k ≠ strL "Edited" := by
  rw [nonActionValues]
  apply keysP_ite
  · apply keysP_append
    · apply keysP_append
      · apply keysP_append
        · apply keysP_append
          · apply keysP_pushFrom
            decide
          · apply keysP_pushIf
            decide
        · rcases hf : m.forwardedFromId with _ | fwd
          · exact keysP_nil _
          · exact keysP_pushIf (by decide)
      · apply keysP_pushReplyToMsgId
        decide
    · apply keysP_ite
      · apply keysP_pushIf
        decide
      · exact keysP_nil _
  · exact keysP_nil _

/-- No pair pushed by the media dispatch carries a base label. -/
theorem mediaValues_keys (m : Message) (peers : PeerMap) (dom : Chars) :
    ∀ k v, (k, v) ∈ mediaValues m peers dom →
      k ≠ strL "ID" ∧ k ≠ strL "Date" ∧ k ≠ strL "Edited" := by
  cases hmc : m.media.content
  all_goals
    simp only [mediaValues, hmc] <;>
    repeat' first
      | apply keysP_append
      | apply keysP_pushUserNames
      | apply keysP_pushTTL
      | apply keysP_pushPhoto
      | apply keysP_pushPath
      | apply keysP_pushIf
      | apply keysP_ite
      | exact keysP_nil _
      | decide

/-- No pair after the three base pairs of `messageValues` carries a base
label. -/
theorem restValues_keys (m : Message) (peers : PeerMap) (dom : Chars) :
    ∀ k v, (k, v) ∈ actionValues m peers ++
        (nonActionValues m peers ++
          (mediaValues m peers dom ++ pushIf (strL "Text") m.text)) →
      k ≠ strL "ID" ∧ k ≠ strL "Date" ∧ k ≠ strL "Edited" :=
  keysP_append (actionValues_keys m peers)
    (keysP_append (nonActionValues_keys m peers)
      (keysP_append (mediaValues_keys m peers dom) (keysP_pushIf (by decide))))

/-- The modelled timestamp formatter yields the empty token exactly for
the zero timestamp (spec §4.1). -/
theorem formatDateTime_empty_iff (t : Nat) : FormatDateTime t = [] ↔ t = 0 := by
  rw [FormatDateTime]
  by_cases h : t = 0
  · simp [h]
  · simp [h, strL]

/-- Decimal strings are never empty. -/
theorem numberToString_ne_nil (n : Nat) : NumberToString n ≠ [] := by
  rw [numberToString_plain]
  have := decLen_pos n
  rw [decLen] at this
  intro h
  rw [h] at this
  simp at this

theorem hasEntry_append (a b : List (Chars × Chars)) (l : Chars) :
    hasEntry (a ++ b) l = (hasEntry a l || hasEntry b l) := by
  simp [hasEntry]

theorem hasEntry_false_of_keys (vals : List (Chars × Chars)) (l : Chars)
    (h : ∀ k v, (k, v) ∈ vals → k ≠ l) : hasEntry vals l = false := by
  rw [hasEntry, List.any_eq_false]
  intro p hp
  simp [h p.1 p.2 hp]

/-- C9 counterexample: a supported message with id 1 and zero date and
edited timestamps serializes without any Date or Edited entry — the whole
output is the single ID line. -/
theorem serializeMessage_zero_edited_no_entry :
    ({ id := 1 } : Message).media.content ≠ .unsupported
    ∧ hasEntry (messageValues { id := 1 } [] []) (strL "Date") = false
    ∧ hasEntry (messageValues { id := 1 } [] []) (strL "Edited") = false
    ∧ SerializeMessage { id := 1 } [] [] = strL "ID: 1" ++ kLineBreak := by
  decide

/-- C9 as amended: for every message with supported media, the serialized
pair list always holds a kept ID entry, but holds a kept Date entry
exactly when the date is nonzero and a kept Edited entry exactly when the
edited timestamp is nonzero (the pairs are pushed unconditionally and the
key-value serializer drops the empty-formatted ones); `SerializeMessage`
renders exactly these pairs. -/
theorem serializeMessage_id_always_date_edited_iff
    (m : Message) (peers : PeerMap) (dom : Chars)
    (hsup : m.media.content ≠ .unsupported) :
    hasEntry (messageValues m peers dom) (strL "ID") = true
    ∧ (hasEntry (messageValues m peers dom) (strL "Date") = true ↔ m.date ≠ 0)
    ∧ (hasEntry (messageValues m peers dom) (strL "Edited") = true ↔ m.edited ≠ 0)
    ∧ SerializeMessage m peers dom =
        SerializeKeyValue (messageValues m peers dom) := by
  have hassoc : messageValues m peers dom =
      baseValues m ++ (actionValues m peers ++
        (nonActionValues m peers ++
          (mediaValues m peers dom ++ pushIf (strL "Text") m.text))) := by
    simp [messageValues, List.append_assoc]
  have hrest := restValues_keys m peers dom
  have hbase : ∀ l : Chars, hasEntry (messageValues m peers dom) l =
      (hasEntry (baseValues m) l ||
        hasEntry (actionValues m peers ++
          (nonActionValues m peers ++
            (mediaValues m peers dom ++ pushIf (strL "Text") m.text))) l) := by
    intro l
    rw [hassoc, hasEntry_append]
  refine ⟨?_, ?_, ?_, ?_⟩
  · rw [hbase]
    have : hasEntry (baseValues m) (strL "ID") = true := by
      have hne := numberToString_ne_nil m.id
      simp [hasEntry, baseValues, hne]
    rw [this]
    simp
  · rw [hbase, hasEntry_false_of_keys _ _ (fun k v hm => (hrest k v hm).2.1)]
    have hid : decide (strL "ID" = strL "Date") = false := by decide
    have hed : decide (strL "Edited" = strL "Date") = false := by decide
    have hd : hasEntry (baseValues m) (strL "Date") =
        !decide (FormatDateTime m.date = []) := by
      simp [hasEntry, baseValues, hid, hed]
    rw [hd, Bool.or_false]
    simp [formatDateTime_empty_iff]
  · rw [hbase, hasEntry_false_of_keys _ _ (fun k v hm => (hrest k v hm).2.2)]
    have hid : decide (strL "ID" = strL "Edited") = false := by decide
    have hda : decide (strL "Date" = strL "Edited") = false := by decide
    have hd : hasEntry (baseValues m) (strL "Edited") =
        !decide (FormatDateTime m.edited = []) := by
      simp [hasEntry, baseValues, hid, hda]
    rw [hd, Bool.or_false]
    simp [formatDateTime_empty_iff]
  · rw [SerializeMessage, if_neg hsup]

/-- Witness for the amended C9, at a message with nonzero date and zero
edited timestamp. -/
theorem serializeMessage_id_always_date_edited_iff_witness :
    hasEntry (messageValues { id := 4, date := 11 } [] []) (strL "ID") = true
    ∧ (hasEntry (messageValues { id := 4, date := 11 } [] []) (strL "Date") = true ↔
        ({ id := 4, date := 11 } : Message).date ≠ 0)
    ∧ (hasEntry (messageValues { id := 4, date := 11 } [] []) (strL "Edited") = true ↔
        ({ id := 4, date := 11 } : Message).edited ≠ 0)
    ∧ SerializeMessage { id := 4, date := 11 } [] [] =
        SerializeKeyValue (messageValues { id := 4, date := 11 } [] []) :=
  serializeMessage_id_always_date_edited_iff { id := 4, date := 11 } [] []
    (by decide)

/-! ### `SerializeMultiline` analysis (for C2) -/

/-- What `QByteArray::indexOf` guarantees on a hit: the index is in range,
past the start, carries the character, and nothing before it does. -/
theorem indexOfFrom_some {l : Chars} {c : Char} {s m : Nat}
    (h : indexOfFrom l c s = some m) :
    s ≤ m ∧ m < l.length ∧ l[m]? = some c ∧
      ∀ j, s ≤ j → j < m → l[j]? ≠ some c := by
  rw [indexOfFrom] at h
  obtain ⟨i, hfind, hplus⟩ := Option.map_eq_some'.mp h
  obtain ⟨hlen, hp, hbefore⟩ := List.findIdx?_eq_some_iff_getElem.mp hfind
  have hdroplen : (l.drop s).length = l.length - s := List.length_drop s l
  have hslen : s ≤ l.length := by
    by_contra hcon
    rw [hdroplen] at hlen
    omega
  have hm : m = i + s := hplus.symm ▸ rfl
  refine ⟨by omega, by omega, ?_, ?_⟩
  · have h1 : (l.drop s)[i]? = l[s + i]? := List.getElem?_drop l s i
    have h2 : (l.drop s)[i]? = some (l.drop s)[i] := List.getElem?_eq_getElem hlen
    have h3 : (l.drop s)[i] = c := of_decide_eq_true hp
    rw [show m = s + i by omega, ← h1, h2, h3]
  · intro j hj1 hj2 hcon
    have hji : j - s < i := by omega
    have h1 : (l.drop s)[j - s]? = l[s + (j - s)]? := List.getElem?_drop l s (j - s)
    have h2 : (l.drop s)[j - s]? = some (l.drop s)[j - s] :=
      List.getElem?_eq_getElem (by omega)
    have h3 := hbefore (j - s) hji
    rw [show s + (j - s) = j by omega] at h1
    rw [hcon, h2] at h1
    exact h3 (by simp [Option.some.injEq .. ▸ h1])

/-- A miss of `QByteArray::indexOf`: the character does not occur at or
after the start. -/
theorem indexOfFrom_none {l : Chars} {c : Char} {s : Nat}
    (h : indexOfFrom l c s = none) : c ∉ l.drop s := by
  rw [indexOfFrom, Option.map_eq_none'] at h
  intro hmem
  have := List.findIdx?_eq_none_iff.mp h c hmem
  simp at this

/-- Decomposing the suffix at its first line feed. -/
theorem drop_decomp {v : Chars} {off n : Nat}
    (h : indexOfFrom v '\n' off = some n) :
    v.drop off = (v.drop off).take (n - off) ++ '\n' :: v.drop (n + 1)
    ∧ '\n' ∉ (v.drop off).take (n - off)
    ∧ ((v.drop off).take (n - off)).length = n - off := by
  obtain ⟨hs, hlt, hget, hbefore⟩ := indexOfFrom_some h
  have hdlen : (v.drop off).length = v.length - off := List.length_drop off v
  refine ⟨?_, ?_, ?_⟩
  · have h1 := List.take_append_drop (n - off) (v.drop off)
    have h2 : (v.drop off).drop (n - off) = v.drop n := by
      rw [List.drop_drop]
      congr 1
      omega
    have h3 : v.drop n = v[n] :: v.drop (n + 1) := List.drop_eq_getElem_cons hlt
    have h4 : v[n] = '\n' := by
      have := List.getElem?_eq_getElem hlt
      rw [this] at hget
      exact Option.some.injEq .. ▸ hget
    rw [h2, h3, h4] at h1
    exact h1.symm
  · intro hmem
    obtain ⟨j, hj, hjx⟩ := List.mem_iff_getElem.mp hmem
    have hjlen : j < n - off := by
      have := List.length_take (n - off) (v.drop off)
      omega
    have h1 : ((v.drop off).take (n - off))[j]? = (v.drop off)[j]? := by
      rw [List.getElem?_take, if_pos hjlen]
    have h2 : (v.drop off)[j]? = v[off + j]? := List.getElem?_drop v off j
    have h3 : ((v.drop off).take (n - off))[j]? =
        some ((v.drop off).take (n - off))[j] := List.getElem?_eq_getElem hj
    rw [hjx] at h3
    have := hbefore (off + j) (by omega) (by omega)
    rw [← h2, ← h1, h3] at this
    exact this rfl
  · have := List.length_take (n - off) (v.drop off)
    omega

theorem splitNl_ne_nil (v : Chars) : splitNl v ≠ [] := by
  cases v with
  | nil => simp [splitNl]
  | cons c rest =>
    rw [splitNl]
    by_cases h : c = '\n'
    · simp [h]
    · rw [if_neg h]
      cases splitNl rest <;> simp

/-- Splitting a line-feed-free string. -/
theorem splitNl_no_nl (s : Chars) (h : '\n' ∉ s) : splitNl s = [s] := by
  induction s with
  | nil => rfl
  | cons c rest ih =>
    have hc : c ≠ '\n' := fun hcon => h (by simp [hcon])
    rw [splitNl, if_neg hc, ih (fun hcon => h (by simp [hcon]))]

/-- Splitting at the first line feed peels off the first piece. -/
theorem splitNl_append_nl (t r : Chars) (h : '\n' ∉ t) :
    splitNl (t ++ '\n' :: r) = t :: splitNl r := by
  induction t with
  | nil => simp [splitNl]
  | cons c t ih =>
    have hc : c ≠ '\n' := fun hcon => h (by simp [hcon])
    have ht : '\n' ∉ t := fun hcon => h (by simp [hcon])
    rw [List.cons_append, splitNl, if_neg hc, ih ht]

/-- A string with `k` line feeds splits into `k + 1` pieces. -/
theorem splitNl_length (v : Chars) :
    (splitNl v).length = v.count '\n' + 1 := by
  induction v with
  | nil => simp [splitNl]
  | cons c rest ih =>
    rw [splitNl]
    by_cases h : c = '\n'
    · simp [h, List.count_cons, ih]
    · rw [if_neg h]
      have hne := splitNl_ne_nil rest
      cases hsp : splitNl rest with
      | nil => exact absurd hsp hne
      | cons p ps =>
        rw [hsp] at ih
        simp only [List.length_cons] at ih ⊢
        rw [List.count_cons]
        simp [h, Ne.symm h, ih]

/-- When the source does not end in a line feed, the final piece is
nonempty. -/
theorem splitNl_last_ne_nil (v : Chars) (hv : v ≠ [])
    (h : v.getLast? ≠ some '\n') : (splitNl v).getLast? ≠ some [] := by
  induction v with
  | nil => exact absurd rfl hv
  | cons c rest ih =>
    by_cases hr : rest = []
    · subst hr
      by_cases hc : c = '\n'
      · exact absurd (by simp [hc]) h
      · rw [splitNl, if_neg hc]
        simp [splitNl]
    · have hlast : (c :: rest).getLast? = rest.getLast? := by
        cases rest with
        | nil => exact absurd rfl hr
        | cons d ds => exact List.getLast?_cons_cons
      rw [hlast] at h
      have ihr := ih hr h
      rw [splitNl]
      by_cases hc : c = '\n'
      · rw [if_pos hc]
        cases hsp : splitNl rest with
        | nil => exact absurd hsp (splitNl_ne_nil rest)
        | cons p ps =>
          rw [hsp] at ihr
          simpa [List.getLast?_cons_cons] using ihr
      · rw [if_neg hc]
        cases hsp : splitNl rest with
        | nil => exact absurd hsp (splitNl_ne_nil rest)
        | cons p ps =>
          rw [hsp] at ihr
          cases ps with
          | nil => simp at ihr ⊢
          | cons q qs => simpa [List.getLast?_cons_cons] using ihr

theorem joinNl_cons (x : Chars) (P : List Chars) (h : P ≠ []) :
    joinNl (x :: P) = x ++ '\n' :: joinNl P := by
  cases P with
  | nil => exact absurd rfl h
  | cons p ps => rfl

/-- Joining the pieces back with `'\n'` restores the source. -/
theorem joinNl_splitNl (v : Chars) : joinNl (splitNl v) = v := by
  induction v with
  | nil => rfl
  | cons c rest ih =>
    rw [splitNl]
    by_cases hc : c = '\n'
    · rw [if_pos hc, joinNl_cons [] (splitNl rest) (splitNl_ne_nil rest), ih, hc]
      rfl
    · rw [if_neg hc]
      cases hsp : splitNl rest with
      | nil => exact absurd hsp (splitNl_ne_nil rest)
      | cons p ps =>
        rw [hsp] at ih
        cases ps with
        | nil =>
          simp only [joinNl] at ih ⊢
          rw [ih]
        | cons q qs =>
          simp only [joinNl] at ih ⊢
          rw [List.cons_append, ih]

/-- A piece, CR-stripped and followed by its original separator, is the
piece followed by a line feed. -/
theorem stripCR_append_sep (p : Chars) :
    stripCR p ++ (if endsCR p then ['\r', '\n'] else ['\n']) = p ++ ['\n'] := by
  by_cases h : endsCR p
  · rw [stripCR, if_pos h, if_pos h]
    have hlast : p.getLast? = some '\r' := of_decide_eq_true h
    have hne : p ≠ [] := by
      intro hcon
      rw [hcon] at hlast
      simp at hlast
    have hdrop : p.dropLast ++ [p.getLast hne] = p := List.dropLast_append_getLast hne
    have hgl : p.getLast hne = '\r' := by
      have := List.getLast?_eq_getLast p hne
      rw [this] at hlast
      exact Option.some.injEq .. ▸ hlast.symm ▸ rfl
    calc p.dropLast ++ ['\r', '\n']
        = (p.dropLast ++ ['\r']) ++ ['\n'] := by simp
      _ = p ++ ['\n'] := by rw [← hgl, hdrop]
  · rw [stripCR, if_neg h, if_neg h]

/-- Rejoining the quoted lines with the original separators restores the
source pieces joined by line feeds. -/
theorem interleave_quoted_seps (P : List Chars) :
    interleave (quotedOf P) (sepsOf P) = joinNl P := by
  match P with
  | [] => rfl
  | [p] => rfl
  | p :: q :: ps =>
    have hQ : quotedOf (p :: q :: ps) = stripCR p :: quotedOf (q :: ps) := rfl
    have hS : sepsOf (p :: q :: ps) =
        (if endsCR p then ['\r', '\n'] else ['\n']) :: sepsOf (q :: ps) := rfl
    rw [hQ, hS]
    have hq : quotedOf (q :: ps) ≠ [] := by
      cases ps <;> simp [quotedOf]
    cases hsp : quotedOf (q :: ps) with
    | nil => exact absurd hsp hq
    | cons x xs =>
      have hI : interleave (stripCR p :: x :: xs)
          ((if endsCR p then ['\r', '\n'] else ['\n']) :: sepsOf (q :: ps)) =
          stripCR p ++ (if endsCR p then ['\r', '\n'] else ['\n']) ++
            interleave (x :: xs) (sepsOf (q :: ps)) := rfl
      rw [hI]
      have ih := interleave_quoted_seps (q :: ps)
      rw [hsp] at ih
      rw [ih, joinNl_cons p (q :: ps) (by simp)]
      rw [stripCR_append_sep p]
      simp

/-- The quoted lines are one per piece. -/
theorem quotedOf_length (P : List Chars) : (quotedOf P).length = P.length := by
  match P with
  | [] => rfl
  | [p] => rfl
  | p :: q :: ps =>
    have hQ : quotedOf (p :: q :: ps) = stripCR p :: quotedOf (q :: ps) := rfl
    rw [hQ]
    have := quotedOf_length (q :: ps)
    simp only [List.length_cons] at this ⊢
    omega

/-- With a nonempty final piece, `renderPieces` is one quoted, terminated
line per quoted piece. -/
theorem renderPieces_eq_concat (P : List Chars) (h : P.getLast? ≠ some []) :
    renderPieces P =
      concatAll ((quotedOf P).map (fun q => quoteMark ++ q ++ kLineBreak)) := by
  match P with
  | [] => rfl
  | [p] =>
    have hp : p ≠ [] := by
      intro hcon
      rw [hcon] at h
      simp at h
    rw [renderPieces, if_neg hp]
    simp [quotedOf, concatAll]
  | p :: q :: ps =>
    have hR : renderPieces (p :: q :: ps) =
        quoteMark ++ stripCR p ++ kLineBreak ++ renderPieces (q :: ps) := rfl
    have hQ : quotedOf (p :: q :: ps) = stripCR p :: quotedOf (q :: ps) := rfl
    rw [hR, hQ]
    have ih := renderPieces_eq_concat (q :: ps)
      (by simpa [List.getLast?_cons_cons] using h)
    rw [List.map_cons, concatAll_cons, ih]

/-- One loop iteration of `SerializeMultiline` when another line feed
follows. -/
theorem loop_step_some (v : Chars) (off n m : Nat)
    (h2 : indexOfFrom v '\n' (n + 1) = some m) (hb : n < m ∧ m < v.length) :
    serializeMultilineLoop v off n =
      quoteMark ++ (v.drop off).take
        ((if n > 0 && decide (v.get? (n - 1) = some '\r') then n - 1 else n) - off)
        ++ kLineBreak ++ serializeMultilineLoop v (n + 1) m := by
  rw [serializeMultilineLoop.eq_def, h2]
  simp [hb]

/-- The final loop iteration of `SerializeMultiline`. -/
theorem loop_step_none (v : Chars) (off n : Nat)
    (h2 : indexOfFrom v '\n' (n + 1) = none) :
    serializeMultilineLoop v off n =
      quoteMark ++ (v.drop off).take
        ((if n > 0 && decide (v.get? (n - 1) = some '\r') then n - 1 else n) - off)
        ++ kLineBreak ++ serializeMultilineTail v (n + 1) := by
  rw [serializeMultilineLoop.eq_def, h2]

/-- The line the loop emits is the CR-stripped first piece of the
suffix.  The session invariant (the loop starts at 0 or right after a
line feed) rules out the `win` test looking left of the suffix. -/
theorem emitted_line_eq (v : Chars) (off n : Nat)
    (hinv : off = 0 ∨ v.get? (off - 1) = some '\n')
    (hidx : indexOfFrom v '\n' off = some n) :
    (v.drop off).take
      ((if n > 0 && decide (v.get? (n - 1) = some '\r') then n - 1 else n) - off)
      = stripCR ((v.drop off).take (n - off)) := by
  obtain ⟨hs, hlt, hget, hbefore⟩ := indexOfFrom_some hidx
  obtain ⟨hdec, hmem, htlen⟩ := drop_decomp hidx
  by_cases hno : n = off
  · have hz : ((if n > 0 && decide (v.get? (n - 1) = some '\r')
        then n - 1 else n) - off) = 0 := by
      split <;> omega
    have hz2 : n - off = 0 := by omega
    rw [hz, hz2]
    simp [stripCR, endsCR]
  · have hoff : off < n := by omega
    have hlast : ((v.drop off).take (n - off)).getLast? = v[n - 1]? := by
      rw [List.getLast?_eq_getElem?, htlen, List.getElem?_take,
        if_pos (by omega : n - off - 1 < n - off), List.getElem?_drop]
      congr 1
      omega
    have hn0 : (decide (n > 0)) = true := by
      simp
      omega
    have hgetq : v.get? (n - 1) = v[n - 1]? := List.get?_eq_getElem? v (n - 1)
    by_cases hcr : v[n - 1]? = some '\r'
    · have hwin : (n > 0 && decide (v.get? (n - 1) = some '\r')) = true := by
        rw [hgetq]
        simp [hcr]
        omega
      have hends : endsCR ((v.drop off).take (n - off)) = true := by
        rw [endsCR, hlast, hcr]
        simp
      rw [hwin, if_pos rfl, stripCR, hends, if_pos rfl]
      rw [List.dropLast_eq_take, htlen, List.take_take]
      congr 1
      omega
    · have hwin : (n > 0 && decide (v.get? (n - 1) = some '\r')) = false := by
        rw [hgetq]
        simp [hcr]
      have hends : endsCR ((v.drop off).take (n - off)) = false := by
        rw [endsCR, hlast]
        simp [hcr]
      rw [hwin, stripCR, hends]
      simp

/-- The loop renders the pieces of the remaining suffix, one quoted line
per piece (the final piece only when nonempty). -/
theorem loop_renders :
    ∀ (fuel : Nat) (v : Chars) (off n : Nat),
      v.length - n ≤ fuel →
      (off = 0 ∨ v.get? (off - 1) = some '\n') →
      indexOfFrom v '\n' off = some n →
      serializeMultilineLoop v off n = renderPieces (splitNl (v.drop off)) := by
  intro fuel
  induction fuel with
  | zero =>
    intro v off n hfuel hinv hidx
    obtain ⟨_, hlt, _, _⟩ := indexOfFrom_some hidx
    omega
  | succ fuel ih =>
    intro v off n hfuel hinv hidx
    obtain ⟨hs, hlt, hget, hbefore⟩ := indexOfFrom_some hidx
    obtain ⟨hdec, hmem, htlen⟩ := drop_decomp hidx
    have hline := emitted_line_eq v off n hinv hidx
    have hsplit : splitNl (v.drop off) =
        (v.drop off).take (n - off) :: splitNl (v.drop (n + 1)) :=
      (congrArg splitNl hdec).trans (splitNl_append_nl _ _ hmem)
    have hinv2 : (n + 1 = 0 ∨ v.get? (n + 1 - 1) = some '\n') := by
      right
      rw [show n + 1 - 1 = n by omega, List.get?_eq_getElem?]
      exact hget
    cases hnext : indexOfFrom v '\n' (n + 1) with
    | some m =>
      obtain ⟨hs2, hlt2, _, _⟩ := indexOfFrom_some hnext
      rw [loop_step_some v off n m hnext ⟨by omega, hlt2⟩]
      rw [ih v (n + 1) m (by omega) hinv2 hnext]
      rw [hline, hsplit]
      cases hsp : splitNl (v.drop (n + 1)) with
      | nil => exact absurd hsp (splitNl_ne_nil _)
      | cons p ps =>
        have hR : renderPieces ((v.drop off).take (n - off) :: p :: ps) =
            quoteMark ++ stripCR ((v.drop off).take (n - off)) ++ kLineBreak ++
              renderPieces (p :: ps) := rfl
        rw [hR]
    | none =>
      rw [loop_step_none v off n hnext]
      rw [hline, hsplit]
      have hnonl : '\n' ∉ v.drop (n + 1) := indexOfFrom_none hnext
      rw [splitNl_no_nl _ hnonl]
      have hR : renderPieces ((v.drop off).take (n - off) :: [v.drop (n + 1)]) =
          quoteMark ++ stripCR ((v.drop off).take (n - off)) ++ kLineBreak ++
            renderPieces [v.drop (n + 1)] := rfl
      have hone : renderPieces [v.drop (n + 1)] =
          if v.drop (n + 1) = [] then []
          else quoteMark ++ v.drop (n + 1) ++ kLineBreak := rfl
      rw [hR, hone, serializeMultilineTail]
      by_cases hend : v.length > n + 1
      · rw [if_pos hend,
          if_neg (fun hcon => by have := List.drop_eq_nil_iff.mp hcon; omega)]
      · rw [if_neg hend, if_pos (List.drop_eq_nil_iff.mpr (by omega))]

/-- `SerializeMultiline`, called as `SerializeKeyValue` calls it (with the
index of the first line feed), renders the pieces of the value. -/
theorem serializeMultiline_renders (v : Chars) (n : Nat)
    (h : indexOfFrom v '\n' 0 = some n) :
    SerializeMultiline v n = renderPieces (splitNl v) := by
  have := loop_renders v.length v 0 n (by omega) (Or.inl rfl) h
  rw [SerializeMultiline, this]
  simp

/-- C2 counterexample: the value `"a\n"` holds one embedded line break,
yet the key-value serializer emits only one block-quoted line, not two —
a value ending in a line feed produces no quoted line for the final,
empty piece (and so the claimed rejoining cannot restore the trailing
separator). -/
theorem serializeKeyValue_trailing_newline_cex :
    (['a', '\n'] : Chars).count '\n' = 1
    ∧ ((splitNl (SerializeKeyValue [(['K'], ['a', '\n'])])).filter
        isQuotedLine).length ≠ (['a', '\n'] : Chars).count '\n' + 1 := by
  have hnone : indexOfFrom ['a', '\n'] '\n' 2 = none := by decide
  have hsm : SerializeMultiline ['a', '\n'] 1 = ['>', ' ', 'a', '\n'] := by
    rw [SerializeMultiline, loop_step_none _ 0 1 hnone]
    decide
  have h1 : indexOfFrom ['a', '\n'] '\n' 0 = some 1 := by decide
  have hckv : SerializeKeyValue [(['K'], ['a', '\n'])] =
      ['K', ':', '\n', '>', ' ', 'a', '\n'] := by
    rw [SerializeKeyValue, List.foldl_cons, List.foldl_nil, if_neg (by decide), h1]
    simp only [hsm]
    decide
  rw [hckv]
  constructor
  · decide
  · decide

/-- C2 as amended: for a value with `k ≥ 1` embedded line feeds that does
not end in a line feed, the key-value serializer emits exactly `k + 1`
block-quoted lines — each a piece of the value with a carriage return
directly before an embedded newline not copied in — and rejoining the
quoted lines with the value's original separators restores the value. -/
theorem serializeKeyValue_multiline_spec (label v : Chars)
    (hk : 1 ≤ v.count '\n') (hlast : v.getLast? ≠ some '\n') :
    SerializeKeyValue [(label, v)] =
      label ++ [':'] ++ kLineBreak ++
        concatAll ((quotedOf (splitNl v)).map
          (fun q => quoteMark ++ q ++ kLineBreak))
    ∧ (quotedOf (splitNl v)).length = v.count '\n' + 1
    ∧ interleave (quotedOf (splitNl v)) (sepsOf (splitNl v)) = v := by
  have hmem : '\n' ∈ v := by
    by_contra hcon
    rw [← List.count_eq_zero] at hcon
    omega
  have hne : v ≠ [] := List.ne_nil_of_mem hmem
  obtain ⟨n, hidx⟩ : ∃ n, indexOfFrom v '\n' 0 = some n := by
    cases h : indexOfFrom v '\n' 0 with
    | none =>
      exfalso
      have := indexOfFrom_none h
      rw [List.drop_zero] at this
      exact this hmem
    | some n => exact ⟨n, rfl⟩
  have hrender := serializeMultiline_renders v n hidx
  have hlastp := splitNl_last_ne_nil v hne hlast
  refine ⟨?_, ?_, ?_⟩
  · have hckv : SerializeKeyValue [(label, v)] =
        [] ++ label ++ [':'] ++ kLineBreak ++ SerializeMultiline v n := by
      rw [SerializeKeyValue, List.foldl_cons, List.foldl_nil, if_neg hne, hidx]
    rw [hckv, hrender, renderPieces_eq_concat _ hlastp]
    simp
  · rw [quotedOf_length, splitNl_length]
  · rw [interleave_quoted_seps, joinNl_splitNl]

/-- Witness for the amended C2, at the value `"a\r\nb\nc"`: two embedded
line breaks, three quoted lines, CR dropped, round trip restored. -/
theorem serializeKeyValue_multiline_spec_witness :
    SerializeKeyValue [(strL "K", strL "a\r\nb\nc")] =
      strL "K" ++ [':'] ++ kLineBreak ++
        concatAll ((quotedOf (splitNl (strL "a\r\nb\nc"))).map
          (fun q => quoteMark ++ q ++ kLineBreak))
    ∧ (quotedOf (splitNl (strL "a\r\nb\nc"))).length =
        (strL "a\r\nb\nc").count '\n' + 1
    ∧ interleave (quotedOf (splitNl (strL "a\r\nb\nc")))
        (sepsOf (splitNl (strL "a\r\nb\nc"))) = strL "a\r\nb\nc" :=
  serializeKeyValue_multiline_spec (strL "K") (strL "a\r\nb\nc")
    (by decide) (by decide)
